import Mathlib

/-!
Verification of the Rapantix multiplayer session engine
(`src/backend/app.py`) via a shallow embedding in Lean 4.

Strings are modelled as lists of Unicode codepoints (`Str := List Nat`).
The Unicode-dependent primitives (`unicodedata.normalize("NFD", ·)`,
`str.casefold`) are modelled by explicit codepoint tables covering the
repertoire exercised by this development (ASCII plus the Latin-1 accented
letters and special punctuation the code manipulates); characters outside
the table decompose/fold to themselves.  Timestamps (`time.time()`) are
modelled as integers supplied by the caller, and the session TTL as an
integer parameter.
-/

set_option maxRecDepth 4096

abbrev Str := List Nat

/-- Modelled Unicode NFD decompositions (accented Latin letters used by the
game's French-language repertoire).  All other codepoints decompose to
themselves. -/
def nfdTable : List (Nat × List Nat) :=
  [ (0xC0, [65, 0x300]), (0xC2, [65, 0x302]), (0xC4, [65, 0x308]),
    (0xC7, [67, 0x327]), (0xC8, [69, 0x300]), (0xC9, [69, 0x301]),
    (0xCA, [69, 0x302]), (0xCB, [69, 0x308]), (0xCE, [73, 0x302]),
    (0xCF, [73, 0x308]), (0xD4, [79, 0x302]), (0xD6, [79, 0x308]),
    (0xD9, [85, 0x300]), (0xDB, [85, 0x302]), (0xDC, [85, 0x308]),
    (0xE0, [97, 0x300]), (0xE2, [97, 0x302]), (0xE4, [97, 0x308]),
    (0xE7, [99, 0x327]), (0xE8, [101, 0x300]), (0xE9, [101, 0x301]),
    (0xEA, [101, 0x302]), (0xEB, [101, 0x308]), (0xEE, [105, 0x302]),
    (0xEF, [105, 0x308]), (0xF4, [111, 0x302]), (0xF6, [111, 0x308]),
    (0xF9, [117, 0x300]), (0xFB, [117, 0x302]), (0xFC, [117, 0x308]) ]

/-- Modelled `str.casefold` special mappings beyond ASCII upper-to-lower
(for the repertoire above only non-trivial entry needed is sharp s). -/
def cfTable : List (Nat × List Nat) :=
  [ (0xDF, [115, 115]) ]

def tableLookup (t : List (Nat × List Nat)) (c : Nat) : Option (List Nat) :=
  match t with
  | [] => none
  | e :: rest => if e.1 = c then some e.2 else tableLookup rest c

/-- One character of `unicodedata.normalize("NFD", value)`. -/
def nfdChar (c : Nat) : List Nat :=
  (tableLookup nfdTable c).getD [c]

/-- One character of `str.casefold`. -/
def casefoldChar (c : Nat) : List Nat :=
  match tableLookup cfTable c with
  | some l => l
  | none => if 65 ≤ c ∧ c ≤ 90 then [c + 32] else [c]

/-- The chained `.replace` calls of `normalize_word`: curly apostrophe and
backquote become a plain apostrophe, guillemets are dropped. -/
def replaceQuotesChar (c : Nat) : List Nat :=
  if c = 0x2019 ∨ c = 96 then [39]
  else if c = 0xAB ∨ c = 0xBB ∨ c = 0x2039 ∨ c = 0x203A then []
  else [c]

/-- Python whitespace (`str.strip`, regex `\s`). -/
def isPySpace (c : Nat) : Bool :=
  ([9, 10, 11, 12, 13, 28, 29, 30, 31, 32, 133, 160, 0x1680,
    0x2000, 0x2001, 0x2002, 0x2003, 0x2004, 0x2005, 0x2006, 0x2007,
    0x2008, 0x2009, 0x200A, 0x2028, 0x2029, 0x202F, 0x205F, 0x3000] : List Nat).contains c

/-- Python `str.strip()`. -/
def pyStrip (s : Str) : Str :=
  ((s.dropWhile isPySpace).reverse.dropWhile isPySpace).reverse

/-- `normalize_word` from `src/backend/app.py`: NFD-decompose, casefold,
replace quote variants, drop non-ASCII, strip. -/
def normalize_word (value : Str) : Str :=
  pyStrip
    ((((value.flatMap nfdChar).flatMap casefoldChar).flatMap replaceQuotesChar).filter
      (fun c => decide (c < 128)))

/-- `re.sub(pat+, rep, s)` for a single-character class `pat`: every maximal
run of characters satisfying `p` is replaced by `rep`. -/
def subRunsAux (p : Nat → Bool) (rep : Str) : Bool → Str → Str
  | _, [] => []
  | inRun, c :: rest =>
    if p c then (if inRun then [] else rep) ++ subRunsAux p rep true rest
    else c :: subRunsAux p rep false rest

def subRuns (p : Nat → Bool) (rep : Str) (s : Str) : Str :=
  subRunsAux p rep false s

/-- Characters kept by the `[^a-z0-9]+` substitution. -/
def isGuessChar (c : Nat) : Bool :=
  (97 ≤ c && c ≤ 122) || (48 ≤ c && c ≤ 57)

/-- `_normalize_guess_value` from `src/backend/app.py`. -/
def _normalize_guess_value (word : Str) : Str :=
  let normalized := normalize_word word
  let normalized := subRuns (fun c => !isGuessChar c) [32] normalized
  pyStrip (subRuns isPySpace [32] normalized)

/-- Regex word character (`\w`) over the ASCII repertoire produced by
`normalize_word` (the only inputs `_normalize_title_value` feeds to the
feat-token substitution). -/
def isWordChar (c : Nat) : Bool :=
  (48 ≤ c && c ≤ 57) || (65 ≤ c && c ≤ 90) || (97 ≤ c && c ≤ 122) || c == 95

def strFeat : Str := [102, 101, 97, 116]

def strFt : Str := [102, 116]

def strFeaturing : Str := [102, 101, 97, 116, 117, 114, 105, 110, 103]

/-- Drop `pat` from the front of `s`, if it is a prefix. -/
def dropPat : Str → Str → Option Str
  | [], s => some s
  | _, [] => none
  | a :: pa, b :: sb => if a = b then dropPat pa sb else none

/-- Word boundary `\b` to the right of a match. -/
def boundaryAfter : Str → Bool
  | [] => true
  | c :: _ => !isWordChar c

def tryTok1 (pat : Str) (s : Str) : Option Str :=
  match dropPat pat s with
  | some r => if boundaryAfter r then some r else none
  | none => none

/-- One alternation attempt of `\b(feat|ft|featuring)\b` at the current
position (the leading boundary is handled by the caller's scan state). -/
def tryFeatTok (s : Str) : Option Str :=
  match tryTok1 strFeat s with
  | some r => some r
  | none =>
    match tryTok1 strFt s with
    | some r => some r
    | none => tryTok1 strFeaturing s

theorem dropPat_length : ∀ pat s r, dropPat pat s = some r → r.length + pat.length = s.length := by
  intro pat
  induction pat with
  | nil => intro s r h; simp [dropPat] at h; simp [h]
  | cons a pa ih =>
    intro s r h
    cases s with
    | nil => simp [dropPat] at h
    | cons b sb =>
      simp only [dropPat] at h
      split at h
      · have := ih sb r h
        simp [List.length_cons]
        omega
      · exact absurd h (by simp)

theorem tryTok1_lt (pat s r : Str) (hpat : pat ≠ []) (h : tryTok1 pat s = some r) :
    r.length < s.length := by
  have hpl : 0 < pat.length := List.length_pos.2 hpat
  unfold tryTok1 at h
  split at h
  · rename_i r0 heq
    split at h
    · injection h with h2
      subst h2
      have hlen := dropPat_length pat s r0 heq
      omega
    · exact absurd h (by simp)
  · exact absurd h (by simp)

theorem tryFeatTok_lt (s r : Str) (h : tryFeatTok s = some r) : r.length < s.length := by
  unfold tryFeatTok at h
  split at h
  · rename_i r1 h1
    injection h with h2
    subst h2
    exact tryTok1_lt _ _ _ (by simp [strFeat]) h1
  · rename_i h1
    split at h
    · rename_i r2 h2
      injection h with h3
      subst h3
      exact tryTok1_lt _ _ _ (by simp [strFt]) h2
    · rename_i h2
      exact tryTok1_lt _ _ _ (by simp [strFeaturing]) h

/-- The scan of `re.sub(r"\b(feat|ft|featuring)\b", " ", s)`: `prevWord`
records whether the previous character was a word character (so that the
leading `\b` holds exactly when it is `false`).  Every step consumes at
least one character, so the `fuel` parameter is inert whenever it is at
least the string length (`featSubFuel_irrel` below); it only makes the
recursion structural. -/
def featSubFuel : Nat → Bool → Str → Str
  | _, _, [] => []
  | 0, _, _ :: _ => []
  | fuel + 1, prevWord, c :: rest =>
    if prevWord then c :: featSubFuel fuel (isWordChar c) rest
    else
      match tryFeatTok (c :: rest) with
      | some r => 32 :: featSubFuel fuel true r
      | none => c :: featSubFuel fuel (isWordChar c) rest

def featSub (s : Str) : Str := featSubFuel s.length false s

theorem featSubFuel_nil : ∀ fuel b, featSubFuel fuel b [] = [] := by
  intro fuel b
  cases fuel <;> rfl

theorem featSubFuel_irrel :
    ∀ fuel fuel' b s, s.length ≤ fuel → s.length ≤ fuel' →
      featSubFuel fuel b s = featSubFuel fuel' b s := by
  intro fuel
  induction fuel with
  | zero =>
    intro fuel' b s hs _
    have : s = [] := List.length_eq_zero.1 (Nat.le_zero.1 hs)
    subst this
    rw [featSubFuel_nil, featSubFuel_nil]
  | succ fuel ih =>
    intro fuel' b s hs hs'
    cases s with
    | nil => rw [featSubFuel_nil, featSubFuel_nil]
    | cons c rest =>
      cases fuel' with
      | zero => simp at hs'
      | succ fuel' =>
        have hrest : rest.length ≤ fuel := by simp at hs; omega
        have hrest' : rest.length ≤ fuel' := by simp at hs'; omega
        cases b with
        | true =>
          simp only [featSubFuel, if_pos]
          exact congrArg (c :: ·) (ih fuel' _ rest hrest hrest')
        | false =>
          cases htok : tryFeatTok (c :: rest) with
          | some r =>
            have hr := tryFeatTok_lt _ _ htok
            simp only [List.length_cons] at hr
            simp only [featSubFuel, htok, Bool.false_eq_true, if_false, List.cons.injEq, true_and]
            exact ih fuel' _ r (by omega) (by omega)
          | none =>
            simp only [featSubFuel, htok, Bool.false_eq_true, if_false, List.cons.injEq, true_and]
            exact ih fuel' _ rest hrest hrest'

/-- `_normalize_title_value` from `src/backend/app.py`. -/
def _normalize_title_value (value : Str) : Str :=
  let normalized := normalize_word value
  let normalized := featSub normalized
  let normalized := subRuns (fun c => !isGuessChar c) [32] normalized
  pyStrip (subRuns isPySpace [32] normalized)

/-- Codepoints of a Lean string literal, for concrete test inputs. -/
def s2l (s : String) : Str := s.data.map Char.toNat

/-! ## Session engine data model (`src/backend/app.py`) -/

def TEAM_MAX_PLAYERS : Nat := 2

def TEAM_CODE_LENGTH : Nat := 6

/-- `string.ascii_uppercase + string.digits` (codepoints). -/
def CODE_ALPHABET : List Nat :=
  (List.range 26).map (fun i => 65 + i) ++ (List.range 10).map (fun i => 48 + i)

structure Song where
  artist : Str
  title : Str
  lyrics : Str
deriving DecidableEq, Repr

structure GuessEvent where
  seq : Nat
  word : Str
  client_id : Str
  created_at : Int
deriving DecidableEq, Repr

structure TeamSession where
  code : Str
  host_id : Str
  created_at : Option Int
  updated_at : Option Int
  min_streams : Nat
  song : Song
  players : List (Str × Int)
  guesses : List GuessEvent
  guess_index : List (Str × GuessEvent)
  title_found_by : List Str
  next_seq : Nat
deriving DecidableEq, Repr

structure VersusSession where
  code : Str
  host_id : Str
  created_at : Option Int
  updated_at : Option Int
  min_streams : Nat
  song : Song
  players : List (Str × Int)
  guesses_by_player : List (Str × List GuessEvent)
  guess_index_by_player : List (Str × List (Str × GuessEvent))
  next_seq : Nat
  winner_id : Str
deriving DecidableEq, Repr

abbrev TeamRegistry := List (Str × TeamSession)

abbrev VersusRegistry := List (Str × VersusSession)

/-- Insertion-ordered dict read (`d.get(k)` / `d[k]`). -/
def dictGet (k : Str) : List (Str × α) → Option α
  | [] => none
  | e :: rest => if e.1 = k then some e.2 else dictGet k rest

/-- `k in d`. -/
def dictContains (k : Str) (d : List (Str × α)) : Bool :=
  (dictGet k d).isSome

/-- `d[k] = v` — overwrites in place, appends when the key is fresh
(Python dicts preserve insertion order). -/
def dictSet (k : Str) (v : α) : List (Str × α) → List (Str × α)
  | [] => [(k, v)]
  | e :: rest => if e.1 = k then (k, v) :: rest else e :: dictSet k v rest

/-- `d.setdefault(k, []).append(x)`. -/
def dictAppend (k : Str) (x : α) : List (Str × List α) → List (Str × List α)
  | [] => [(k, [x])]
  | e :: rest => if e.1 = k then (e.1, e.2 ++ [x]) :: rest else e :: dictAppend k x rest

/-- `d.setdefault(k, {})[k2] = v` for a dict-of-dicts. -/
def dictSetIn (k k2 : Str) (v : α) : List (Str × List (Str × α)) → List (Str × List (Str × α))
  | [] => [(k, [(k2, v)])]
  | e :: rest => if e.1 = k then (e.1, dictSet k2 v e.2) :: rest else e :: dictSetIn k k2 v rest

/-- Error taxonomy surfaced through `HTTPException` (status, detail). -/
inductive ApiError where
  | badRequest (detail : String)
  | notFound (detail : String)
  | forbidden (detail : String)
  | conflict (detail : String)
  | internal (detail : String)
deriving DecidableEq, Repr

/-- `session.get("updated_at", session.get("created_at", now))`. -/
def sessionActivity (now : Int) (updated created : Option Int) : Int :=
  updated.getD (created.getD now)

/-- `_cleanup_sessions`, generic over the session record type. -/
def cleanupStore (activity : Int → σ → Int) (ttl now : Int)
    (store : List (Str × σ)) : List (Str × σ) :=
  if ttl ≤ 0 then store
  else store.filter (fun e => !decide (now - activity now e.2 > ttl))

def teamActivity (now : Int) (s : TeamSession) : Int :=
  sessionActivity now s.updated_at s.created_at

def versusActivity (now : Int) (s : VersusSession) : Int :=
  sessionActivity now s.updated_at s.created_at

def _cleanup_team_sessions (ttl now : Int) (r : TeamRegistry) : TeamRegistry :=
  cleanupStore teamActivity ttl now r

def _cleanup_versus_sessions (ttl now : Int) (r : VersusRegistry) : VersusRegistry :=
  cleanupStore versusActivity ttl now r

/-- One candidate code from `TEAM_CODE_LENGTH` draws of `random.choice(alphabet)`
(each draw an index into the alphabet). -/
def mkCode (draw : List Nat) : Str :=
  (List.range TEAM_CODE_LENGTH).map
    (fun i => CODE_ALPHABET.getD ((draw.getD i 0) % CODE_ALPHABET.length) 0)

/-- `_generate_session_code`: up to 50 candidates, first one absent from the
store wins; `none` models the `RuntimeError` when all 50 collide. -/
def _generate_session_code (store : List (Str × σ)) (randomness : List (List Nat)) : Option Str :=
  ((randomness.take 50).map mkCode).find? (fun code => !dictContains code store)

/-- `(request.code or "").strip().upper()` — `str.upper` over the ASCII
repertoire of session codes. -/
def pyUpperChar (c : Nat) : Nat :=
  if 97 ≤ c ∧ c ≤ 122 then c - 32 else c

def pyUpper (s : Str) : Str := s.map pyUpperChar

def normCode (code : Str) : Str := pyUpper (pyStrip code)

/-! ## Projected views -/

structure TeamState where
  code : Str
  role : String
  player_count : Nat
  is_full : Bool
  min_streams : Nat
  song : Song
  guesses : List GuessEvent
  title_found : Bool
  title_found_by_count : Nat
  you_found_title : Bool
  teammate_found_title : Bool
deriving DecidableEq, Repr

/-- `_build_team_state`. -/
def _build_team_state (session : TeamSession) (client_id : Str) : TeamState :=
  { code := session.code
    role := if session.host_id = client_id then "host" else "guest"
    player_count := session.players.length
    is_full := decide (session.players.length ≥ TEAM_MAX_PLAYERS)
    min_streams := session.min_streams
    song := session.song
    guesses := session.guesses
    title_found := decide (session.title_found_by.length > 0)
    title_found_by_count := session.title_found_by.length
    you_found_title := decide (client_id ∈ session.title_found_by)
    teammate_found_title := session.title_found_by.any (fun pid => decide (pid ≠ client_id)) }

structure VersusState where
  code : Str
  role : String
  player_count : Nat
  is_full : Bool
  min_streams : Nat
  song : Song
  your_guesses : List GuessEvent
  opponent_guesses : List GuessEvent
  opponent_id : Str
  winner_id : Str
  finished : Bool
  you_won : Bool
  opponent_won : Bool
deriving DecidableEq, Repr

/-- `_build_versus_state`. -/
def _build_versus_state (session : VersusSession) (client_id : Str) : VersusState :=
  let opponent_id :=
    ((session.players.find? (fun e => decide (e.1 ≠ client_id))).map (fun e => e.1)).getD []
  let winner_id := session.winner_id
  { code := session.code
    role := if session.host_id = client_id then "host" else "guest"
    player_count := session.players.length
    is_full := decide (session.players.length ≥ TEAM_MAX_PLAYERS)
    min_streams := session.min_streams
    song := session.song
    your_guesses := (dictGet client_id session.guesses_by_player).getD []
    opponent_guesses := (dictGet opponent_id session.guesses_by_player).getD []
    opponent_id := opponent_id
    winner_id := winner_id
    finished := decide (winner_id ≠ [])
    you_won := decide (winner_id ≠ []) && decide (winner_id = client_id)
    opponent_won := decide (winner_id ≠ []) && decide (winner_id ≠ client_id) }

structure GuessResponse where
  accepted : Bool
  event : GuessEvent
deriving DecidableEq, Repr

structure TeamTitleResponse where
  correct : Bool
  title : Option Str
  state : TeamState
deriving DecidableEq, Repr

structure VersusTitleResponse where
  correct : Bool
  title : Option Str
  state : VersusState
deriving DecidableEq, Repr

/-! ## Team session engine operations -/

/-- `create_team_session`.  The nondeterminism of `random.choice` is supplied
as `randomness`; a `none` from the code generator models the fatal
`RuntimeError`.  Mutation of the module-level registry is modelled by
returning the updated registry alongside the response. -/
def create_team_session (ttl : Int) (reg : TeamRegistry) (client_id0 : Str)
    (min_streams0 : Int) (song : Song) (now : Int) (randomness : List (List Nat)) :
    TeamRegistry × Except ApiError TeamState :=
  let client_id := pyStrip client_id0
  if client_id = [] then (reg, .error (.badRequest "Missing client_id"))
  else if pyStrip song.artist = [] ∨ pyStrip song.title = [] ∨ pyStrip song.lyrics = [] then
    (reg, .error (.badRequest "Incomplete song payload"))
  else
    let reg := _cleanup_team_sessions ttl now reg
    match _generate_session_code reg randomness with
    | none => (reg, .error (.internal "Unable to generate unique session code"))
    | some code =>
      let session : TeamSession :=
        { code := code
          host_id := client_id
          created_at := some now
          updated_at := some now
          min_streams := (max 0 min_streams0).toNat
          song := song
          players := [(client_id, now)]
          guesses := []
          guess_index := []
          title_found_by := []
          next_seq := 1 }
      (dictSet code session reg, .ok (_build_team_state session client_id))

/-- `join_team_session`. -/
def join_team_session (ttl : Int) (reg : TeamRegistry) (code0 client_id0 : Str)
    (now : Int) : TeamRegistry × Except ApiError TeamState :=
  let code := normCode code0
  let client_id := pyStrip client_id0
  if code = [] then (reg, .error (.badRequest "Missing code"))
  else if client_id = [] then (reg, .error (.badRequest "Missing client_id"))
  else
    let reg := _cleanup_team_sessions ttl now reg
    match dictGet code reg with
    | none => (reg, .error (.notFound "Session not found"))
    | some session =>
      if ¬ dictContains client_id session.players ∧
          session.players.length ≥ TEAM_MAX_PLAYERS then
        (reg, .error (.conflict "Session is full"))
      else
        let session :=
          if ¬ dictContains client_id session.players then
            { session with players := session.players ++ [(client_id, now)] }
          else session
        let session := { session with updated_at := some now }
        (dictSet code session reg, .ok (_build_team_state session client_id))

/-- `get_team_session_state`. -/
def get_team_session_state (ttl : Int) (reg : TeamRegistry) (code0 client_id0 : Str)
    (now : Int) : TeamRegistry × Except ApiError TeamState :=
  let code := normCode code0
  let client_id := pyStrip client_id0
  if code = [] then (reg, .error (.badRequest "Missing code"))
  else if client_id = [] then (reg, .error (.badRequest "Missing client_id"))
  else
    let reg := _cleanup_team_sessions ttl now reg
    match dictGet code reg with
    | none => (reg, .error (.notFound "Session not found"))
    | some session =>
      if ¬ dictContains client_id session.players then
        (reg, .error (.forbidden "Join session first"))
      else
        let session := { session with updated_at := some now }
        (dictSet code session reg, .ok (_build_team_state session client_id))

/-- `add_team_guess`. -/
def add_team_guess (ttl : Int) (reg : TeamRegistry) (code0 client_id0 word0 : Str)
    (now : Int) : TeamRegistry × Except ApiError GuessResponse :=
  let code := normCode code0
  let client_id := pyStrip client_id0
  let word := pyStrip word0
  if code = [] then (reg, .error (.badRequest "Missing code"))
  else if client_id = [] then (reg, .error (.badRequest "Missing client_id"))
  else if word = [] then (reg, .error (.badRequest "Missing word"))
  else
    let normalized_word := _normalize_guess_value word
    if normalized_word = [] then (reg, .error (.badRequest "Invalid word"))
    else
      let reg := _cleanup_team_sessions ttl now reg
      match dictGet code reg with
      | none => (reg, .error (.notFound "Session not found"))
      | some session =>
        if ¬ dictContains client_id session.players then
          (reg, .error (.forbidden "Join session first"))
        else
          match dictGet normalized_word session.guess_index with
          | some existing_event => (reg, .ok ⟨false, existing_event⟩)
          | none =>
            let event : GuessEvent :=
              { seq := session.next_seq
                word := word
                client_id := client_id
                created_at := now }
            let session :=
              { session with
                next_seq := session.next_seq + 1
                guesses := session.guesses ++ [event]
                guess_index := dictSet normalized_word event session.guess_index
                updated_at := some now }
            (dictSet code session reg, .ok ⟨true, event⟩)

/-- `add_team_title_guess`. -/
def add_team_title_guess (ttl : Int) (reg : TeamRegistry) (code0 client_id0 title0 : Str)
    (now : Int) : TeamRegistry × Except ApiError TeamTitleResponse :=
  let code := normCode code0
  let client_id := pyStrip client_id0
  let title_guess := pyStrip title0
  if code = [] then (reg, .error (.badRequest "Missing code"))
  else if client_id = [] then (reg, .error (.badRequest "Missing client_id"))
  else if title_guess = [] then (reg, .error (.badRequest "Missing title"))
  else
    let reg := _cleanup_team_sessions ttl now reg
    match dictGet code reg with
    | none => (reg, .error (.notFound "Session not found"))
    | some session =>
      if ¬ dictContains client_id session.players then
        (reg, .error (.forbidden "Join session first"))
      else
        let target_title := session.song.title
        if pyStrip target_title = [] then
          (reg, .error (.internal "Session song title missing"))
        else
          let normalized_target := _normalize_title_value target_title
          let normalized_guess := _normalize_title_value title_guess
          if normalized_target = [] ∨ normalized_guess = [] then
            (reg, .error (.badRequest "Invalid title"))
          else
            let correct := normalized_guess = normalized_target
            if correct ∧ client_id ∉ session.title_found_by then
              let session :=
                { session with
                  title_found_by := session.title_found_by ++ [client_id]
                  updated_at := some now }
              (dictSet code session reg,
               .ok ⟨true, some target_title, _build_team_state session client_id⟩)
            else
              (reg,
               .ok ⟨decide correct, if correct then some target_title else none,
                    _build_team_state session client_id⟩)

/-! ## Versus session engine operations -/

/-- `create_versus_session`. -/
def create_versus_session (ttl : Int) (reg : VersusRegistry) (client_id0 : Str)
    (min_streams0 : Int) (song : Song) (now : Int) (randomness : List (List Nat)) :
    VersusRegistry × Except ApiError VersusState :=
  let client_id := pyStrip client_id0
  if client_id = [] then (reg, .error (.badRequest "Missing client_id"))
  else if pyStrip song.artist = [] ∨ pyStrip song.title = [] ∨ pyStrip song.lyrics = [] then
    (reg, .error (.badRequest "Incomplete song payload"))
  else
    let reg := _cleanup_versus_sessions ttl now reg
    match _generate_session_code reg randomness with
    | none => (reg, .error (.internal "Unable to generate unique session code"))
    | some code =>
      let session : VersusSession :=
        { code := code
          host_id := client_id
          created_at := some now
          updated_at := some now
          min_streams := (max 0 min_streams0).toNat
          song := song
          players := [(client_id, now)]
          guesses_by_player := [(client_id, [])]
          guess_index_by_player := [(client_id, [])]
          next_seq := 1
          winner_id := [] }
      (dictSet code session reg, .ok (_build_versus_state session client_id))

/-- `join_versus_session`. -/
def join_versus_session (ttl : Int) (reg : VersusRegistry) (code0 client_id0 : Str)
    (now : Int) : VersusRegistry × Except ApiError VersusState :=
  let code := normCode code0
  let client_id := pyStrip client_id0
  if code = [] then (reg, .error (.badRequest "Missing code"))
  else if client_id = [] then (reg, .error (.badRequest "Missing client_id"))
  else
    let reg := _cleanup_versus_sessions ttl now reg
    match dictGet code reg with
    | none => (reg, .error (.notFound "Session not found"))
    | some session =>
      if ¬ dictContains client_id session.players ∧
          session.players.length ≥ TEAM_MAX_PLAYERS then
        (reg, .error (.conflict "Session is full"))
      else
        let session :=
          if ¬ dictContains client_id session.players then
            { session with
              players := session.players ++ [(client_id, now)]
              guesses_by_player := dictSet client_id [] session.guesses_by_player
              guess_index_by_player := dictSet client_id [] session.guess_index_by_player }
          else session
        let session := { session with updated_at := some now }
        (dictSet code session reg, .ok (_build_versus_state session client_id))

/-- `get_versus_session_state`. -/
def get_versus_session_state (ttl : Int) (reg : VersusRegistry) (code0 client_id0 : Str)
    (now : Int) : VersusRegistry × Except ApiError VersusState :=
  let code := normCode code0
  let client_id := pyStrip client_id0
  if code = [] then (reg, .error (.badRequest "Missing code"))
  else if client_id = [] then (reg, .error (.badRequest "Missing client_id"))
  else
    let reg := _cleanup_versus_sessions ttl now reg
    match dictGet code reg with
    | none => (reg, .error (.notFound "Session not found"))
    | some session =>
      if ¬ dictContains client_id session.players then
        (reg, .error (.forbidden "Join session first"))
      else
        let session := { session with updated_at := some now }
        (dictSet code session reg, .ok (_build_versus_state session client_id))

/-- `add_versus_guess`.  The dedup check reads only the submitting player's
own index (`guess_index_by_player.setdefault(client_id, {})`); when the key
was absent the read yields the empty index, so the rejected path always had
an existing per-player entry and mutates nothing. -/
def add_versus_guess (ttl : Int) (reg : VersusRegistry) (code0 client_id0 word0 : Str)
    (now : Int) : VersusRegistry × Except ApiError GuessResponse :=
  let code := normCode code0
  let client_id := pyStrip client_id0
  let word := pyStrip word0
  if code = [] then (reg, .error (.badRequest "Missing code"))
  else if client_id = [] then (reg, .error (.badRequest "Missing client_id"))
  else if word = [] then (reg, .error (.badRequest "Missing word"))
  else
    let normalized_word := _normalize_guess_value word
    if normalized_word = [] then (reg, .error (.badRequest "Invalid word"))
    else
      let reg := _cleanup_versus_sessions ttl now reg
      match dictGet code reg with
      | none => (reg, .error (.notFound "Session not found"))
      | some session =>
        if ¬ dictContains client_id session.players then
          (reg, .error (.forbidden "Join session first"))
        else if session.winner_id ≠ [] then
          (reg, .error (.conflict "Session finished"))
        else
          let player_guess_index :=
            (dictGet client_id session.guess_index_by_player).getD []
          match dictGet normalized_word player_guess_index with
          | some existing_event => (reg, .ok ⟨false, existing_event⟩)
          | none =>
            let event : GuessEvent :=
              { seq := session.next_seq
                word := word
                client_id := client_id
                created_at := now }
            let session :=
              { session with
                next_seq := session.next_seq + 1
                guesses_by_player := dictAppend client_id event session.guesses_by_player
                guess_index_by_player :=
                  dictSetIn client_id normalized_word event session.guess_index_by_player
                updated_at := some now }
            (dictSet code session reg, .ok ⟨true, event⟩)

/-- `add_versus_title_guess`. -/
def add_versus_title_guess (ttl : Int) (reg : VersusRegistry) (code0 client_id0 title0 : Str)
    (now : Int) : VersusRegistry × Except ApiError VersusTitleResponse :=
  let code := normCode code0
  let client_id := pyStrip client_id0
  let title_guess := pyStrip title0
  if code = [] then (reg, .error (.badRequest "Missing code"))
  else if client_id = [] then (reg, .error (.badRequest "Missing client_id"))
  else if title_guess = [] then (reg, .error (.badRequest "Missing title"))
  else
    let reg := _cleanup_versus_sessions ttl now reg
    match dictGet code reg with
    | none => (reg, .error (.notFound "Session not found"))
    | some session =>
      if ¬ dictContains client_id session.players then
        (reg, .error (.forbidden "Join session first"))
      else
        let target_title := session.song.title
        if pyStrip target_title = [] then
          (reg, .error (.internal "Session song title missing"))
        else
          let normalized_target := _normalize_title_value target_title
          let normalized_guess := _normalize_title_value title_guess
          if normalized_target = [] ∨ normalized_guess = [] then
            (reg, .error (.badRequest "Invalid title"))
          else
            let correct := normalized_guess = normalized_target
            if correct ∧ session.winner_id = [] then
              let session :=
                { session with
                  winner_id := client_id
                  updated_at := some now }
              (dictSet code session reg,
               .ok ⟨true, some target_title, _build_versus_state session client_id⟩)
            else
              (reg,
               .ok ⟨decide correct, if correct then some target_title else none,
                    _build_versus_state session client_id⟩)

/-! ## Concrete fixtures -/

def songYZ : Song := { artist := s2l "X", title := s2l "Y Z", lyrics := s2l "la la" }

def teamSessionYZ : TeamSession :=
  { code := s2l "ABCDEF"
    host_id := s2l "A"
    created_at := some 10
    updated_at := some 11
    min_streams := 0
    song := songYZ
    players := [(s2l "A", 10), (s2l "B", 11)]
    guesses := []
    guess_index := []
    title_found_by := []
    next_seq := 1 }

def teamRegYZ : TeamRegistry := [(s2l "ABCDEF", teamSessionYZ)]

/-! ## C1 -/

/-- C1, counterexample: the feat-token substitution removes only the token
itself, never the featured artist's name, so
`_normalize_title_value "Song Title (feat. X)"` is `"song title x"`, which
differs from `_normalize_title_value "Song Title" = "song title"`; and the
team titleGuess `"y z (feat. Q)"` against stored title `"Y Z"` does not
return `correct:true`. -/
theorem title_feat_annotation_counterexample :
    ¬ (_normalize_title_value (s2l "Song Title (feat. X)") =
         _normalize_title_value (s2l "Song Title") ∧
       (add_team_title_guess 43200 teamRegYZ (s2l "ABCDEF") (s2l "A")
           (s2l "y z (feat. Q)") 14).2.toOption.map TeamTitleResponse.correct = some true) := by
  decide

/-- C1, amended: `_normalize_title_value` deletes only the standalone tokens
feat/ft/featuring, so a `"(feat. X)"` annotation leaves the artist name
behind: `_normalize_title_value "Song Title (feat. X)" = "song title x" ≠
"song title" = _normalize_title_value "Song Title"`; the annotation is
tolerated exactly when nothing but the token and punctuation is added
(`"Song Title (feat.)"` normalizes equal to the bare title), and a team
titleGuess of `"y z (feat. Q)"` against stored title `"Y Z"` returns
`correct:false`. -/
theorem title_feat_annotation_token_only :
    _normalize_title_value (s2l "Song Title (feat. X)") = s2l "song title x" ∧
    _normalize_title_value (s2l "Song Title") = s2l "song title" ∧
    _normalize_title_value (s2l "Song Title (feat.)") =
      _normalize_title_value (s2l "Song Title") ∧
    (add_team_title_guess 43200 teamRegYZ (s2l "ABCDEF") (s2l "A")
        (s2l "y z (feat. Q)") 14).2.toOption.map TeamTitleResponse.correct = some false := by
  decide

/-! ## Dictionary lemmas -/

theorem dictGet_dictSet_self (k : Str) (v : α) (d : List (Str × α)) :
    dictGet k (dictSet k v d) = some v := by
  induction d with
  | nil => simp [dictSet, dictGet]
  | cons e rest ih =>
    by_cases h : e.1 = k
    · simp [dictSet, h, dictGet]
    · simp [dictSet, h, dictGet, ih]

theorem dictGet_dictSet_ne (k k' : Str) (v : α) (d : List (Str × α)) (h : k' ≠ k) :
    dictGet k' (dictSet k v d) = dictGet k' d := by
  induction d with
  | nil =>
    simp only [dictSet, dictGet]
    rw [if_neg (fun hh => h hh.symm)]
  | cons e rest ih =>
    by_cases he : e.1 = k
    · simp only [dictSet, if_pos he, dictGet]
      rw [if_neg (fun hh => h hh.symm), if_neg (he ▸ fun hh => h hh.symm)]
    · simp only [dictSet, if_neg he, dictGet, ih]

theorem dictGet_some_key_mem (k : Str) (d : List (Str × α)) (v : α)
    (h : dictGet k d = some v) : k ∈ d.map Prod.fst := by
  induction d with
  | nil => simp [dictGet] at h
  | cons e rest ih =>
    by_cases he : e.1 = k
    · simp [he]
    · simp only [dictGet, if_neg he] at h
      simp [ih h]

theorem dictGet_filter_of_nodup (p : Str × α → Bool) (d : List (Str × α))
    (hnd : (d.map Prod.fst).Nodup) (c : Str) (s : α)
    (h : dictGet c (d.filter p) = some s) : dictGet c d = some s := by
  induction d with
  | nil => simp [dictGet] at h
  | cons e rest ih =>
    rw [List.map_cons, List.nodup_cons] at hnd
    obtain ⟨hne, hnd'⟩ := hnd
    by_cases hpe : p e
    · rw [List.filter_cons_of_pos hpe] at h
      simp only [dictGet] at h ⊢
      by_cases hk : e.1 = c
      · rwa [if_pos hk] at h ⊢
      · rw [if_neg hk] at h ⊢
        exact ih hnd' h
    · rw [List.filter_cons_of_neg hpe] at h
      have hrest := ih hnd' h
      simp only [dictGet]
      by_cases hk : e.1 = c
      · exact absurd (hk ▸ dictGet_some_key_mem c rest s hrest) hne
      · rwa [if_neg hk]

theorem dictGet_cleanup_team (ttl now : Int) (reg : TeamRegistry)
    (hnd : (reg.map Prod.fst).Nodup) (c : Str) (s : TeamSession)
    (h : dictGet c (_cleanup_team_sessions ttl now reg) = some s) :
    dictGet c reg = some s := by
  unfold _cleanup_team_sessions cleanupStore at h
  split at h
  · exact h
  · exact dictGet_filter_of_nodup _ reg hnd c s h

theorem dictGet_cleanup_versus (ttl now : Int) (reg : VersusRegistry)
    (hnd : (reg.map Prod.fst).Nodup) (c : Str) (s : VersusSession)
    (h : dictGet c (_cleanup_versus_sessions ttl now reg) = some s) :
    dictGet c reg = some s := by
  unfold _cleanup_versus_sessions cleanupStore at h
  split at h
  · exact h
  · exact dictGet_filter_of_nodup _ reg hnd c s h

/-! ## C3 -/

/-- C3: in a team session, a guess whose normalized form is already a key of
the session's dedup index is rejected with the identical first-recorded
event, and the operation leaves the registry exactly as the reaper pass left
it — no new event, no `next_seq` advance, for whichever member submits. -/
theorem team_guess_dedup_frozen (ttl : Int) (reg : TeamRegistry)
    (code0 client_id0 word0 : Str) (now : Int) (session : TeamSession) (ev : GuessEvent)
    (hcode : normCode code0 ≠ [])
    (hclient : pyStrip client_id0 ≠ [])
    (hword : pyStrip word0 ≠ [])
    (hnorm : _normalize_guess_value (pyStrip word0) ≠ [])
    (hsess : dictGet (normCode code0) (_cleanup_team_sessions ttl now reg) = some session)
    (hmem : dictContains (pyStrip client_id0) session.players = true)
    (hidx : dictGet (_normalize_guess_value (pyStrip word0)) session.guess_index = some ev) :
    add_team_guess ttl reg code0 client_id0 word0 now =
      (_cleanup_team_sessions ttl now reg, Except.ok ⟨false, ev⟩) := by
  simp only [add_team_guess, if_neg hcode, if_neg hclient, if_neg hword, if_neg hnorm,
    hsess, hmem, hidx]
  simp

/-- Fixture: the "Y Z" team session after event 1 ("bonjour" by A). -/
def teamSessionDedup : TeamSession :=
  { teamSessionYZ with
    guesses := [⟨1, s2l "bonjour", s2l "A", 12⟩]
    guess_index := [(s2l "bonjour", ⟨1, s2l "bonjour", s2l "A", 12⟩)]
    next_seq := 2 }

def teamRegDedup : TeamRegistry := [(s2l "ABCDEF", teamSessionDedup)]

/-- C3 witness: member B resubmits the word already recorded as event 1. -/
theorem team_guess_dedup_frozen_witness :
    add_team_guess 43200 teamRegDedup (s2l "abcdef") (s2l "B") (s2l "Bonjour!") 13 =
      (_cleanup_team_sessions 43200 13 teamRegDedup,
       Except.ok ⟨false, ⟨1, s2l "bonjour", s2l "A", 12⟩⟩) :=
  team_guess_dedup_frozen 43200 teamRegDedup (s2l "abcdef") (s2l "B") (s2l "Bonjour!") 13
    teamSessionDedup ⟨1, s2l "bonjour", s2l "A", 12⟩
    (by decide) (by decide) (by decide) (by decide) (by decide) (by decide) (by decide)

/-! ## C6 -/

/-- C6: once a versus session's `winner_id` is non-empty, `add_versus_guess`
answers Conflict ("Session finished") for every member and every word, and
commits nothing beyond the reaper pass. -/
theorem versus_guess_after_winner_conflict (ttl : Int) (reg : VersusRegistry)
    (code0 client_id0 word0 : Str) (now : Int) (session : VersusSession)
    (hcode : normCode code0 ≠ [])
    (hclient : pyStrip client_id0 ≠ [])
    (hword : pyStrip word0 ≠ [])
    (hnorm : _normalize_guess_value (pyStrip word0) ≠ [])
    (hsess : dictGet (normCode code0) (_cleanup_versus_sessions ttl now reg) = some session)
    (hmem : dictContains (pyStrip client_id0) session.players = true)
    (hwin : session.winner_id ≠ []) :
    add_versus_guess ttl reg code0 client_id0 word0 now =
      (_cleanup_versus_sessions ttl now reg, Except.error (.conflict "Session finished")) := by
  simp only [add_versus_guess, if_neg hcode, if_neg hclient, if_neg hword, if_neg hnorm,
    hsess, hmem, hwin]
  simp
  intro h
  exact absurd h hwin

/-- Fixture: a versus session already won by A. -/
def versusSessionWon : VersusSession :=
  { code := s2l "ABCDEF", host_id := s2l "A", created_at := some 10,
    updated_at := some 15, min_streams := 0, song := songYZ,
    players := [(s2l "A", 10), (s2l "B", 11)],
    guesses_by_player := [(s2l "A", []), (s2l "B", [])],
    guess_index_by_player := [(s2l "A", []), (s2l "B", [])],
    next_seq := 1, winner_id := s2l "A" }

def versusRegWon : VersusRegistry := [(s2l "ABCDEF", versusSessionWon)]

/-- C6 witness: after A won, B's fresh word is refused with Conflict. -/
theorem versus_guess_after_winner_conflict_witness :
    add_versus_guess 43200 versusRegWon (s2l "ABCDEF") (s2l "B") (s2l "w9") 16 =
      (_cleanup_versus_sessions 43200 16 versusRegWon,
       Except.error (.conflict "Session finished")) :=
  versus_guess_after_winner_conflict 43200 versusRegWon (s2l "ABCDEF") (s2l "B") (s2l "w9") 16
    versusSessionWon
    (by decide) (by decide) (by decide) (by decide) (by decide) (by decide) (by decide)

/-! ## C9 -/

theorem team_guess_reject_frame_aux (ttl now : Int) (reg reg' : TeamRegistry)
    (code0 client_id0 word0 : Str) (r : GuessResponse)
    (h : add_team_guess ttl reg code0 client_id0 word0 now = (reg', Except.ok r))
    (hacc : r.accepted = false) : reg' = _cleanup_team_sessions ttl now reg := by
  unfold add_team_guess at h
  simp only [] at h
  repeat' split at h
  all_goals rw [Prod.mk.injEq] at h
  all_goals first
    | exact Except.noConfusion h.2
    | exact h.1.symm
    | (have h2 := h.2; injection h2 with h3; rw [← h3] at hacc; simp at hacc)

theorem versus_guess_reject_frame_aux (ttl now : Int) (reg reg' : VersusRegistry)
    (code0 client_id0 word0 : Str) (r : GuessResponse)
    (h : add_versus_guess ttl reg code0 client_id0 word0 now = (reg', Except.ok r))
    (hacc : r.accepted = false) : reg' = _cleanup_versus_sessions ttl now reg := by
  unfold add_versus_guess at h
  simp only [] at h
  repeat' split at h
  all_goals rw [Prod.mk.injEq] at h
  all_goals first
    | exact Except.noConfusion h.2
    | exact h.1.symm
    | (have h2 := h.2; injection h2 with h3; rw [← h3] at hacc; simp at hacc)

/-- C9: a dedup-rejected guess mutates nothing: whenever `add_team_guess` or
`add_versus_guess` answers `accepted:false`, the registry it leaves behind is
exactly the one the reaper pass produced — in particular the addressed
session, `updated_at` included, is untouched, so a duplicate guess does not
extend the idle-expiry deadline. -/
theorem dedup_reject_frame :
    (∀ (ttl now : Int) (reg reg' : TeamRegistry) (code0 client_id0 word0 : Str)
       (r : GuessResponse),
       add_team_guess ttl reg code0 client_id0 word0 now = (reg', Except.ok r) →
       r.accepted = false → reg' = _cleanup_team_sessions ttl now reg) ∧
    (∀ (ttl now : Int) (reg reg' : VersusRegistry) (code0 client_id0 word0 : Str)
       (r : GuessResponse),
       add_versus_guess ttl reg code0 client_id0 word0 now = (reg', Except.ok r) →
       r.accepted = false → reg' = _cleanup_versus_sessions ttl now reg) :=
  ⟨fun ttl now reg reg' c cl w r h hacc =>
      team_guess_reject_frame_aux ttl now reg reg' c cl w r h hacc,
   fun ttl now reg reg' c cl w r h hacc =>
      versus_guess_reject_frame_aux ttl now reg reg' c cl w r h hacc⟩

/-- Fixture: a versus session where B has already guessed "bonjour". -/
def versusSessionDedup : VersusSession :=
  { code := s2l "ABCDEF", host_id := s2l "A", created_at := some 10,
    updated_at := some 12, min_streams := 0, song := songYZ,
    players := [(s2l "A", 10), (s2l "B", 11)],
    guesses_by_player := [(s2l "A", []), (s2l "B", [⟨1, s2l "bonjour", s2l "B", 12⟩])],
    guess_index_by_player :=
      [(s2l "A", []), (s2l "B", [(s2l "bonjour", ⟨1, s2l "bonjour", s2l "B", 12⟩)])],
    next_seq := 2, winner_id := [] }

def versusRegDedup : VersusRegistry := [(s2l "ABCDEF", versusSessionDedup)]

/-- C9 witness: concrete duplicate guesses in each mode leave the cleaned
registries untouched. -/
theorem dedup_reject_frame_witness :
    (add_team_guess 43200 teamRegDedup (s2l "ABCDEF") (s2l "B") (s2l "bonjour") 13).1 =
      _cleanup_team_sessions 43200 13 teamRegDedup ∧
    (add_versus_guess 43200 versusRegDedup (s2l "ABCDEF") (s2l "B") (s2l "bonjour") 13).1 =
      _cleanup_versus_sessions 43200 13 versusRegDedup :=
  ⟨dedup_reject_frame.1 43200 13 teamRegDedup _ (s2l "ABCDEF") (s2l "B") (s2l "bonjour")
      ⟨false, ⟨1, s2l "bonjour", s2l "A", 12⟩⟩ (by rfl) (by rfl),
   dedup_reject_frame.2 43200 13 versusRegDedup _ (s2l "ABCDEF") (s2l "B") (s2l "bonjour")
      ⟨false, ⟨1, s2l "bonjour", s2l "B", 12⟩⟩ (by rfl) (by rfl)⟩

/-! ## C4 -/

theorem dictGet_dictSetIn_ne (k k' k2 : Str) (v : α) (d : List (Str × List (Str × α)))
    (h : k' ≠ k) : dictGet k' (dictSetIn k k2 v d) = dictGet k' d := by
  induction d with
  | nil =>
    simp only [dictSetIn, dictGet]
    rw [if_neg (fun hh => h hh.symm)]
  | cons e rest ih =>
    by_cases he : e.1 = k
    · simp only [dictSetIn, if_pos he, dictGet]
      rw [if_neg (he ▸ fun hh => h hh.symm), if_neg (he ▸ fun hh => h hh.symm)]
    · simp only [dictSetIn, if_neg he, dictGet, ih]

/-- A live entry survives the reaper when the TTL is disabled or its
last-activity timestamp is fresh enough. -/
theorem dictGet_cleanup_keep (activity : Int → σ → Int) (ttl now : Int)
    (d : List (Str × σ)) (c : Str) (s : σ)
    (h : dictGet c d = some s) (hkeep : ttl ≤ 0 ∨ ¬(now - activity now s > ttl)) :
    dictGet c (cleanupStore activity ttl now d) = some s := by
  unfold cleanupStore
  by_cases httl : ttl ≤ 0
  · rwa [if_pos httl]
  · rw [if_neg httl]
    have hkeep' : ¬(now - activity now s > ttl) := hkeep.resolve_left httl
    induction d with
    | nil => simp [dictGet] at h
    | cons e rest ih =>
      by_cases he : e.1 = c
      · rw [dictGet, if_pos he] at h
        injection h with h2
        subst h2
        rw [List.filter_cons_of_pos (by simp; omega), dictGet, if_pos he]
      · rw [dictGet, if_neg he] at h
        by_cases hpe : now - activity now e.2 > ttl
        · rw [List.filter_cons_of_neg (by simp; omega)]
          exact ih h
        · rw [List.filter_cons_of_pos (by simp; omega), dictGet, if_neg he]
          exact ih h

/-- C4: versus dedup is per player: with two distinct members whose own
indices both lack the word's normalized key, the identical word is
`accepted:true` for the first submitter and again `accepted:true` for the
second, because each call consults only the submitting client's own index. -/
theorem versus_guess_dedup_per_player (ttl : Int) (reg : VersusRegistry)
    (code0 a0 b0 word0 : Str) (now1 now2 : Int) (session : VersusSession)
    (hcode : normCode code0 ≠ [])
    (ha : pyStrip a0 ≠ [])
    (hb : pyStrip b0 ≠ [])
    (hab : pyStrip a0 ≠ pyStrip b0)
    (hword : pyStrip word0 ≠ [])
    (hnorm : _normalize_guess_value (pyStrip word0) ≠ [])
    (hsess : dictGet (normCode code0) (_cleanup_versus_sessions ttl now1 reg) = some session)
    (hmema : dictContains (pyStrip a0) session.players = true)
    (hmemb : dictContains (pyStrip b0) session.players = true)
    (hwin : session.winner_id = [])
    (hidxa : dictGet (_normalize_guess_value (pyStrip word0))
        ((dictGet (pyStrip a0) session.guess_index_by_player).getD []) = none)
    (hidxb : dictGet (_normalize_guess_value (pyStrip word0))
        ((dictGet (pyStrip b0) session.guess_index_by_player).getD []) = none)
    (hfresh : ttl ≤ 0 ∨ now2 - now1 ≤ ttl) :
    (add_versus_guess ttl reg code0 a0 word0 now1).2 =
      Except.ok ⟨true, ⟨session.next_seq, pyStrip word0, pyStrip a0, now1⟩⟩ ∧
    (add_versus_guess ttl (add_versus_guess ttl reg code0 a0 word0 now1).1
        code0 b0 word0 now2).2 =
      Except.ok ⟨true, ⟨session.next_seq + 1, pyStrip word0, pyStrip b0, now2⟩⟩ := by
  have h1 : add_versus_guess ttl reg code0 a0 word0 now1 =
      (dictSet (normCode code0)
        { session with
          next_seq := session.next_seq + 1
          guesses_by_player := dictAppend (pyStrip a0)
            ⟨session.next_seq, pyStrip word0, pyStrip a0, now1⟩ session.guesses_by_player
          guess_index_by_player := dictSetIn (pyStrip a0)
            (_normalize_guess_value (pyStrip word0))
            ⟨session.next_seq, pyStrip word0, pyStrip a0, now1⟩ session.guess_index_by_player
          updated_at := some now1 }
        (_cleanup_versus_sessions ttl now1 reg),
       Except.ok ⟨true, ⟨session.next_seq, pyStrip word0, pyStrip a0, now1⟩⟩) := by
    simp only [add_versus_guess, if_neg hcode, if_neg ha, if_neg hword, if_neg hnorm,
      hsess, hmema, hwin, hidxa]
    simp [hwin]
  constructor
  · rw [h1]
  · rw [h1]
    have hsess2 : dictGet (normCode code0)
        (_cleanup_versus_sessions ttl now2
          (dictSet (normCode code0)
            { session with
              next_seq := session.next_seq + 1
              guesses_by_player := dictAppend (pyStrip a0)
                ⟨session.next_seq, pyStrip word0, pyStrip a0, now1⟩ session.guesses_by_player
              guess_index_by_player := dictSetIn (pyStrip a0)
                (_normalize_guess_value (pyStrip word0))
                ⟨session.next_seq, pyStrip word0, pyStrip a0, now1⟩
                session.guess_index_by_player
              updated_at := some now1 }
            (_cleanup_versus_sessions ttl now1 reg))) = some
          { session with
            next_seq := session.next_seq + 1
            guesses_by_player := dictAppend (pyStrip a0)
              ⟨session.next_seq, pyStrip word0, pyStrip a0, now1⟩ session.guesses_by_player
            guess_index_by_player := dictSetIn (pyStrip a0)
              (_normalize_guess_value (pyStrip word0))
              ⟨session.next_seq, pyStrip word0, pyStrip a0, now1⟩
              session.guess_index_by_player
            updated_at := some now1 } := by
      apply dictGet_cleanup_keep
      · exact dictGet_dictSet_self _ _ _
      · cases hfresh with
        | inl h => exact Or.inl h
        | inr h =>
          refine Or.inr ?_
          simp only [versusActivity, sessionActivity, Option.getD_some]
          omega
    have hidxb' : dictGet (_normalize_guess_value (pyStrip word0))
        ((dictGet (pyStrip b0)
          (dictSetIn (pyStrip a0) (_normalize_guess_value (pyStrip word0))
            ⟨session.next_seq, pyStrip word0, pyStrip a0, now1⟩
            session.guess_index_by_player)).getD []) = none := by
      rw [dictGet_dictSetIn_ne _ _ _ _ _ (fun hh => hab hh.symm)]
      exact hidxb
    rw [hwin] at hsess2 ⊢
    simp only [add_versus_guess, if_neg hcode, if_neg hb, if_neg hword, if_neg hnorm,
      hsess2, hmemb, hidxb']
    simp

/-- Fixture: a fresh two-member versus session, no guesses, no winner. -/
def versusSessionFresh : VersusSession :=
  { code := s2l "ABCDEF", host_id := s2l "A", created_at := some 10,
    updated_at := some 11, min_streams := 0, song := songYZ,
    players := [(s2l "A", 10), (s2l "B", 11)],
    guesses_by_player := [(s2l "A", []), (s2l "B", [])],
    guess_index_by_player := [(s2l "A", []), (s2l "B", [])],
    next_seq := 1, winner_id := [] }

def versusRegFresh : VersusRegistry := [(s2l "ABCDEF", versusSessionFresh)]

/-- C4 witness: "bonjour" by A then by B, both `accepted:true`. -/
theorem versus_guess_dedup_per_player_witness :
    (add_versus_guess 43200 versusRegFresh (s2l "ABCDEF") (s2l "A") (s2l "bonjour") 13).2 =
      Except.ok ⟨true, ⟨1, s2l "bonjour", s2l "A", 13⟩⟩ ∧
    (add_versus_guess 43200
        (add_versus_guess 43200 versusRegFresh (s2l "ABCDEF") (s2l "A") (s2l "bonjour") 13).1
        (s2l "ABCDEF") (s2l "B") (s2l "bonjour") 14).2 =
      Except.ok ⟨true, ⟨2, s2l "bonjour", s2l "B", 14⟩⟩ :=
  versus_guess_dedup_per_player 43200 versusRegFresh (s2l "ABCDEF") (s2l "A") (s2l "B")
    (s2l "bonjour") 13 14 versusSessionFresh
    (by decide) (by decide) (by decide) (by decide) (by decide) (by decide) (by decide)
    (by decide) (by decide) (by decide) (by decide) (by decide) (by decide)

/-! ## C7 -/

/-- C7: `_cleanup_sessions` evicts exactly the idle entries: it is a no-op
when TTL ≤ 0, and for positive TTL an entry is in the cleaned registry iff it
was present and its last-activity timestamp (`updated_at`, falling back to
`created_at`, else `now`) is not older than `now − TTL` — in both modes. -/
theorem cleanup_exact_eviction (ttl now : Int) (treg : TeamRegistry) (vreg : VersusRegistry) :
    (ttl ≤ 0 → _cleanup_team_sessions ttl now treg = treg ∧
               _cleanup_versus_sessions ttl now vreg = vreg) ∧
    (0 < ttl →
      (∀ c s, (c, s) ∈ _cleanup_team_sessions ttl now treg ↔
         (c, s) ∈ treg ∧ ¬(now - teamActivity now s > ttl)) ∧
      (∀ c s, (c, s) ∈ _cleanup_versus_sessions ttl now vreg ↔
         (c, s) ∈ vreg ∧ ¬(now - versusActivity now s > ttl))) := by
  refine ⟨fun h => ⟨?_, ?_⟩, fun h => ⟨fun c s => ?_, fun c s => ?_⟩⟩
  · unfold _cleanup_team_sessions cleanupStore
    rw [if_pos h]
  · unfold _cleanup_versus_sessions cleanupStore
    rw [if_pos h]
  · unfold _cleanup_team_sessions cleanupStore
    rw [if_neg (by omega)]
    simp [List.mem_filter]
  · unfold _cleanup_versus_sessions cleanupStore
    rw [if_neg (by omega)]
    simp [List.mem_filter]

/-- C7 witness: with TTL 0 eviction is disabled; with TTL 10 at time 100 the
session last touched at 11 is evicted (its membership iff reduces to a
falsified right side), per the theorem. -/
theorem cleanup_exact_eviction_witness :
    (_cleanup_team_sessions 0 100 teamRegYZ = teamRegYZ ∧
     _cleanup_versus_sessions 0 100 versusRegFresh = versusRegFresh) ∧
    ((s2l "ABCDEF", teamSessionYZ) ∈ _cleanup_team_sessions 10 100 teamRegYZ ↔
      (s2l "ABCDEF", teamSessionYZ) ∈ teamRegYZ ∧
        ¬((100 : Int) - teamActivity 100 teamSessionYZ > 10)) :=
  ⟨(cleanup_exact_eviction 0 100 teamRegYZ versusRegFresh).1 (by decide),
   ((cleanup_exact_eviction 10 100 teamRegYZ versusRegFresh).2 (by decide)).1
      (s2l "ABCDEF") teamSessionYZ⟩


/-! ## C2 -/

def VersusRegShape (cleaned reg reg' : VersusRegistry) : Prop :=
  reg' = reg ∨ reg' = cleaned ∨
    ∃ code sess sess', dictGet code cleaned = some sess ∧
      reg' = dictSet code sess' cleaned ∧
      (sess'.winner_id = sess.winner_id ∨ sess.winner_id = [])

theorem join_versus_session_shape (ttl now : Int) (reg : VersusRegistry)
    (code0 client_id0 : Str) :
    VersusRegShape (_cleanup_versus_sessions ttl now reg) reg
      (join_versus_session ttl reg code0 client_id0 now).1 := by
  unfold join_versus_session
  simp only []
  split
  · exact Or.inl rfl
  · split
    · exact Or.inl rfl
    · split
      · exact Or.inr (Or.inl rfl)
      · rename_i session heq
        split
        · exact Or.inr (Or.inl rfl)
        · refine Or.inr (Or.inr ⟨normCode code0, session, _, heq, rfl, Or.inl ?_⟩)
          split
          · rfl
          · rfl

theorem add_versus_guess_shape (ttl now : Int) (reg : VersusRegistry)
    (code0 client_id0 word0 : Str) :
    VersusRegShape (_cleanup_versus_sessions ttl now reg) reg
      (add_versus_guess ttl reg code0 client_id0 word0 now).1 := by
  unfold add_versus_guess
  simp only []
  split
  · exact Or.inl rfl
  · split
    · exact Or.inl rfl
    · split
      · exact Or.inl rfl
      · split
        · exact Or.inl rfl
        · split
          · exact Or.inr (Or.inl rfl)
          · rename_i session heq
            split
            · exact Or.inr (Or.inl rfl)
            · split
              · exact Or.inr (Or.inl rfl)
              · split
                · exact Or.inr (Or.inl rfl)
                · exact Or.inr (Or.inr ⟨normCode code0, session, _, heq, rfl, Or.inl rfl⟩)

theorem get_versus_session_state_shape (ttl now : Int) (reg : VersusRegistry)
    (code0 client_id0 : Str) :
    VersusRegShape (_cleanup_versus_sessions ttl now reg) reg
      (get_versus_session_state ttl reg code0 client_id0 now).1 := by
  unfold get_versus_session_state
  simp only []
  split
  · exact Or.inl rfl
  · split
    · exact Or.inl rfl
    · split
      · exact Or.inr (Or.inl rfl)
      · rename_i session heq
        split
        · exact Or.inr (Or.inl rfl)
        · exact Or.inr (Or.inr ⟨normCode code0, session, _, heq, rfl, Or.inl rfl⟩)

theorem add_versus_title_guess_shape (ttl now : Int) (reg : VersusRegistry)
    (code0 client_id0 title0 : Str) :
    VersusRegShape (_cleanup_versus_sessions ttl now reg) reg
      (add_versus_title_guess ttl reg code0 client_id0 title0 now).1 := by
  unfold add_versus_title_guess
  simp only []
  split
  · exact Or.inl rfl
  · split
    · exact Or.inl rfl
    · split
      · exact Or.inl rfl
      · split
        · exact Or.inr (Or.inl rfl)
        · rename_i session heq
          split
          · exact Or.inr (Or.inl rfl)
          · split
            · exact Or.inr (Or.inl rfl)
            · split
              · exact Or.inr (Or.inl rfl)
              · split
                · rename_i hcw
                  exact Or.inr (Or.inr ⟨normCode code0, session, _, heq, rfl, Or.inr hcw.2⟩)
                · exact Or.inr (Or.inl rfl)

theorem title_guess_loser_view (ttl now : Int) (reg : VersusRegistry)
    (code0 client_id0 title0 : Str) (resp : VersusTitleResponse)
    (hresp : (add_versus_title_guess ttl reg code0 client_id0 title0 now).2 = Except.ok resp)
    (s : VersusSession)
    (hs : dictGet (normCode code0) (_cleanup_versus_sessions ttl now reg) = some s)
    (hw : s.winner_id ≠ []) (hwc : s.winner_id ≠ pyStrip client_id0) :
    resp.state.finished = true ∧ resp.state.opponent_won = true := by
  unfold add_versus_title_guess at hresp
  simp only [] at hresp
  split at hresp
  · exact Except.noConfusion hresp
  · split at hresp
    · exact Except.noConfusion hresp
    · split at hresp
      · exact Except.noConfusion hresp
      · split at hresp
        · exact Except.noConfusion hresp
        · rename_i session heq
          rw [hs] at heq
          injection heq with h2
          subst h2
          split at hresp
          · exact Except.noConfusion hresp
          · split at hresp
            · exact Except.noConfusion hresp
            · split at hresp
              · exact Except.noConfusion hresp
              · split at hresp
                · rename_i hcw
                  exact absurd hcw.2 hw
                · injection hresp with h3
                  rw [← h3]
                  unfold _build_versus_state
                  simp only []
                  refine ⟨by simp [hw], by simp [hw, hwc]⟩

theorem winner_preserved_of_shape (ttl now : Int) (reg reg' : VersusRegistry)
    (hnd : (reg.map Prod.fst).Nodup)
    (hshape : VersusRegShape (_cleanup_versus_sessions ttl now reg) reg reg') :
    ∀ c s s', dictGet c reg = some s → s.winner_id ≠ [] →
      dictGet c reg' = some s' → s'.winner_id = s.winner_id := by
  intro c s s' hs hw hs'
  rcases hshape with h | h | ⟨code, sess, sess', hsess, h, hpres⟩
  · subst h
    rw [hs] at hs'
    injection hs' with h2
    rw [h2]
  · subst h
    have := dictGet_cleanup_versus ttl now reg hnd c s' hs'
    rw [hs] at this
    injection this with h2
    rw [h2]
  · subst h
    by_cases hc : c = code
    · subst hc
      rw [dictGet_dictSet_self] at hs'
      injection hs' with h2
      subst h2
      have := dictGet_cleanup_versus ttl now reg hnd c sess hsess
      rw [hs] at this
      injection this with h3
      subst h3
      rcases hpres with hp | hp
      · exact hp
      · exact absurd hp hw
    · rw [dictGet_dictSet_ne _ _ _ _ hc] at hs'
      have := dictGet_cleanup_versus ttl now reg hnd c s' hs'
      rw [hs] at this
      injection this with h2
      rw [h2]

/-- C2: the versus winner is a one-shot latch: across `titleGuess`, `guess`,
`join` and state reads, a session whose `winner_id` is already set keeps it
unchanged (never cleared or overwritten), and a correct later `titleGuess`
by the other member is answered with a view showing `finished:true` and
`opponent_won:true`. -/
theorem versus_winner_one_shot_latch (ttl now : Int) (reg : VersusRegistry)
    (code0 client_id0 title0 : Str)
    (hnd : (reg.map Prod.fst).Nodup) :
    (∀ c s s', dictGet c reg = some s → s.winner_id ≠ [] →
       dictGet c (add_versus_title_guess ttl reg code0 client_id0 title0 now).1 = some s' →
       s'.winner_id = s.winner_id) ∧
    (∀ resp, (add_versus_title_guess ttl reg code0 client_id0 title0 now).2 = Except.ok resp →
       ∀ s, dictGet (normCode code0) (_cleanup_versus_sessions ttl now reg) = some s →
         s.winner_id ≠ [] → s.winner_id ≠ pyStrip client_id0 →
         resp.state.finished = true ∧ resp.state.opponent_won = true) ∧
    (∀ c s s', dictGet c reg = some s → s.winner_id ≠ [] →
       dictGet c (add_versus_guess ttl reg code0 client_id0 title0 now).1 = some s' →
       s'.winner_id = s.winner_id) ∧
    (∀ c s s', dictGet c reg = some s → s.winner_id ≠ [] →
       dictGet c (join_versus_session ttl reg code0 client_id0 now).1 = some s' →
       s'.winner_id = s.winner_id) ∧
    (∀ c s s', dictGet c reg = some s → s.winner_id ≠ [] →
       dictGet c (get_versus_session_state ttl reg code0 client_id0 now).1 = some s' →
       s'.winner_id = s.winner_id) :=
  ⟨winner_preserved_of_shape ttl now reg _ hnd
      (add_versus_title_guess_shape ttl now reg code0 client_id0 title0),
   fun resp hresp s hs hw hwc =>
     title_guess_loser_view ttl now reg code0 client_id0 title0 resp hresp s hs hw hwc,
   winner_preserved_of_shape ttl now reg _ hnd
      (add_versus_guess_shape ttl now reg code0 client_id0 title0),
   winner_preserved_of_shape ttl now reg _ hnd
      (join_versus_session_shape ttl now reg code0 client_id0),
   winner_preserved_of_shape ttl now reg _ hnd
      (get_versus_session_state_shape ttl now reg code0 client_id0)⟩

/-- C2 witness: B's later correct title guess against the session A already
won is answered with a view showing `finished:true` and `opponent_won:true`,
per the theorem. -/
theorem versus_winner_one_shot_latch_witness :
    (_build_versus_state versusSessionWon (s2l "B")).finished = true ∧
    (_build_versus_state versusSessionWon (s2l "B")).opponent_won = true :=
  (versus_winner_one_shot_latch 43200 16 versusRegWon (s2l "ABCDEF") (s2l "B") (s2l "y z")
      (by decide)).2.1
    ⟨true, some (s2l "Y Z"), _build_versus_state versusSessionWon (s2l "B")⟩
    (by rfl) versusSessionWon (by decide) (by decide) (by decide)

/-! ## C8 -/

/-- Characters that can appear in `normalize_word` output: ASCII, no
uppercase letter (casefold ran), no backquote (replaced). -/
def NormalizedChar (c : Nat) : Prop :=
  c < 128 ∧ ¬(65 ≤ c ∧ c ≤ 90) ∧ c ≠ 96

theorem tableLookup_mem (t : List (Nat × List Nat)) (c : Nat) (l : List Nat)
    (h : tableLookup t c = some l) : (c, l) ∈ t := by
  induction t with
  | nil => simp [tableLookup] at h
  | cons e rest ih =>
    rw [tableLookup] at h
    split at h
    · rename_i he
      injection h with h2
      subst h2
      subst he
      exact List.mem_cons_self _ _
    · exact List.mem_cons_of_mem _ (ih h)

theorem tableLookup_nfd_ascii : ∀ c < 128, tableLookup nfdTable c = none := by decide

theorem tableLookup_cf_ascii : ∀ c < 128, tableLookup cfTable c = none := by decide

theorem nfdChar_ascii (c : Nat) (h : c < 128) : nfdChar c = [c] := by
  unfold nfdChar
  rw [tableLookup_nfd_ascii c h]
  rfl

theorem casefoldChar_not_upper (c : Nat) : ∀ d ∈ casefoldChar c, ¬(65 ≤ d ∧ d ≤ 90) := by
  intro d hd
  unfold casefoldChar at hd
  split at hd
  · rename_i l htab
    have hmem := tableLookup_mem cfTable c l htab
    simp only [cfTable, List.mem_singleton, Prod.mk.injEq] at hmem
    rw [hmem.2] at hd
    simp at hd
    omega
  · split at hd
    · simp at hd
      omega
    · rename_i hno
      simp at hd
      omega

theorem casefoldChar_of_normalized (c : Nat) (h : NormalizedChar c) : casefoldChar c = [c] := by
  unfold casefoldChar
  rw [tableLookup_cf_ascii c h.1]
  rw [if_neg h.2.1]

theorem replaceQuotesChar_mem (c d : Nat) (hd : d ∈ replaceQuotesChar c) :
    d ≠ 96 ∧ (d = 39 ∨ d = c) := by
  unfold replaceQuotesChar at hd
  split at hd
  · simp at hd
    omega
  · split at hd
    · simp at hd
    · rename_i h1 h2
      simp at hd
      subst hd
      exact ⟨fun h96 => h1 (Or.inr h96), Or.inr rfl⟩

theorem replaceQuotesChar_of_normalized (c : Nat) (h : NormalizedChar c) :
    replaceQuotesChar c = [c] := by
  obtain ⟨hlt, _, h96⟩ := h
  unfold replaceQuotesChar
  rw [if_neg (by omega), if_neg (by omega)]

theorem flatMap_id_of_forall (l : Str) (f : Nat → List Nat) (h : ∀ a ∈ l, f a = [a]) :
    l.flatMap f = l := by
  induction l with
  | nil => rfl
  | cons a t ih =>
    rw [List.flatMap_cons, h a (List.mem_cons_self a t),
      ih (fun b hb => h b (List.mem_cons_of_mem a hb)), List.singleton_append]

theorem pyStrip_eq (s : Str) :
    pyStrip s = List.rdropWhile isPySpace (s.dropWhile isPySpace) := rfl

theorem head?_dropWhile_not_py (p : Nat → Bool) (s : Str) :
    ∀ d, (s.dropWhile p).head? = some d → p d = false := by
  induction s with
  | nil => intro d hd; simp at hd
  | cons a t ih =>
    intro d hd
    by_cases hpa : p a
    · rw [List.dropWhile_cons_of_pos hpa] at hd
      exact ih d hd
    · rw [List.dropWhile_cons_of_neg hpa] at hd
      simp at hd
      rw [← hd]
      simpa using hpa

theorem dropWhile_eq_self_of_head (p : Nat → Bool) (l : Str)
    (h : ∀ d, l.head? = some d → p d = false) : l.dropWhile p = l := by
  cases l with
  | nil => rfl
  | cons a t =>
    have ha := h a rfl
    rw [List.dropWhile_cons_of_neg (by simp [ha])]

theorem pyStrip_idem (s : Str) : pyStrip (pyStrip s) = pyStrip s := by
  rw [pyStrip_eq, pyStrip_eq]
  have h1 : (List.rdropWhile isPySpace (s.dropWhile isPySpace)).dropWhile isPySpace =
      List.rdropWhile isPySpace (s.dropWhile isPySpace) := by
    apply dropWhile_eq_self_of_head
    intro d hd
    obtain ⟨t, ht⟩ := List.rdropWhile_prefix isPySpace (s.dropWhile isPySpace)
    have hne : List.rdropWhile isPySpace (s.dropWhile isPySpace) ≠ [] := by
      intro hnil
      rw [hnil] at hd
      simp at hd
    have h2 : (s.dropWhile isPySpace).head? = some d := by
      rw [← ht, List.head?_append_of_ne_nil _ hne, hd]
    exact head?_dropWhile_not_py isPySpace s d h2
  rw [h1, List.rdropWhile_idempotent]

theorem mem_pyStrip (s : Str) (d : Nat) (h : d ∈ pyStrip s) : d ∈ s := by
  rw [pyStrip_eq] at h
  have h2 := (List.rdropWhile_prefix isPySpace (s.dropWhile isPySpace)).sublist.subset h
  exact (List.dropWhile_suffix isPySpace).sublist.subset h2

theorem pyStrip_within (s : Str) : pyStrip s <:+: s := by
  rw [pyStrip_eq]
  exact (List.rdropWhile_prefix isPySpace (s.dropWhile isPySpace)).isInfix.trans
    (List.dropWhile_suffix isPySpace).isInfix

theorem normalize_word_mem (s : Str) : ∀ d ∈ normalize_word s, NormalizedChar d := by
  intro d hd
  unfold normalize_word at hd
  have hd2 := mem_pyStrip _ _ hd
  rw [List.mem_filter] at hd2
  obtain ⟨hd3, hlt⟩ := hd2
  rw [List.mem_flatMap] at hd3
  obtain ⟨e, he, hde⟩ := hd3
  rw [List.mem_flatMap] at he
  obtain ⟨c, _, hec⟩ := he
  have hupper := casefoldChar_not_upper c e hec
  have hrq := replaceQuotesChar_mem e d hde
  refine ⟨by simpa using hlt, ?_, hrq.1⟩
  rcases hrq.2 with h39 | hdc
  · omega
  · rw [hdc]
    exact hupper

theorem normalize_word_of_normalized (x : Str) (h : ∀ c ∈ x, NormalizedChar c) :
    normalize_word x = pyStrip x := by
  unfold normalize_word
  rw [flatMap_id_of_forall x nfdChar (fun a ha => nfdChar_ascii a (h a ha).1),
    flatMap_id_of_forall x casefoldChar (fun a ha => casefoldChar_of_normalized a (h a ha)),
    flatMap_id_of_forall x replaceQuotesChar (fun a ha => replaceQuotesChar_of_normalized a (h a ha)),
    List.filter_eq_self.2 (fun a ha => by simpa using (h a ha).1)]

theorem normalize_word_idem (s : Str) :
    normalize_word (normalize_word s) = normalize_word s := by
  rw [normalize_word_of_normalized _ (normalize_word_mem s)]
  unfold normalize_word
  exact pyStrip_idem _

/-- Adjacent characters are never both spaces. -/
def NoAdjSpace (a b : Nat) : Prop := ¬(a = 32 ∧ b = 32)

theorem subRunsAux_mem (p : Nat → Bool) (l : Str) :
    ∀ b, ∀ d ∈ subRunsAux p [32] b l, d = 32 ∨ (p d = false ∧ d ∈ l) := by
  induction l with
  | nil => intro b d hd; simp [subRunsAux] at hd
  | cons c rest ih =>
    intro b d hd
    simp only [subRunsAux] at hd
    split at hd
    · rw [List.mem_append] at hd
      rcases hd with hd | hd
      · left
        split at hd
        · simp at hd
        · simpa using hd
      · rcases ih true d hd with h32 | ⟨hp, hm⟩
        · exact Or.inl h32
        · exact Or.inr ⟨hp, List.mem_cons_of_mem _ hm⟩
    · rename_i hpc
      rcases List.mem_cons.1 hd with rfl | hd
      · exact Or.inr ⟨by simpa using hpc, List.mem_cons_self _ _⟩
      · rcases ih false d hd with h32 | ⟨hp, hm⟩
        · exact Or.inl h32
        · exact Or.inr ⟨hp, List.mem_cons_of_mem _ hm⟩

theorem subRunsAux_chain (p : Nat → Bool) (hp : p 32 = true) (l : Str) :
    (List.Chain' NoAdjSpace (subRunsAux p [32] false l) ∧
     List.Chain' NoAdjSpace (subRunsAux p [32] true l)) ∧
    (∀ d, (subRunsAux p [32] true l).head? = some d → d ≠ 32) := by
  induction l with
  | nil => exact ⟨⟨List.chain'_nil, List.chain'_nil⟩, by intro d hd; simp [subRunsAux] at hd⟩
  | cons c rest ih =>
    obtain ⟨⟨ihf, iht⟩, ihh⟩ := ih
    by_cases hpc : p c = true
    · have hout : subRunsAux p [32] false (c :: rest) = 32 :: subRunsAux p [32] true rest := by
        simp [subRunsAux, hpc]
      have hout2 : subRunsAux p [32] true (c :: rest) = subRunsAux p [32] true rest := by
        simp [subRunsAux, hpc]
      refine ⟨⟨?_, ?_⟩, ?_⟩
      · rw [hout, List.chain'_cons']
        exact ⟨fun y hy => fun ⟨_, hy32⟩ => ihh y hy hy32, iht⟩
      · rw [hout2]
        exact iht
      · rw [hout2]
        exact ihh
    · have hc32 : c ≠ 32 := fun h => hpc (h ▸ hp)
      have hout : subRunsAux p [32] false (c :: rest) = c :: subRunsAux p [32] false rest := by
        simp [subRunsAux, hpc]
      have hout2 : subRunsAux p [32] true (c :: rest) = c :: subRunsAux p [32] false rest := by
        simp [subRunsAux, hpc]
      have hchain : List.Chain' NoAdjSpace (c :: subRunsAux p [32] false rest) := by
        rw [List.chain'_cons']
        exact ⟨fun y _ => fun ⟨hc, _⟩ => hc32 hc, ihf⟩
      refine ⟨⟨?_, ?_⟩, ?_⟩
      · rw [hout]; exact hchain
      · rw [hout2]; exact hchain
      · rw [hout2]
        intro d hd
        simp at hd
        rw [← hd]
        exact hc32

theorem subRunsAux_id (p : Nat → Bool) (l : Str)
    (h32 : ∀ c ∈ l, (p c = true ↔ c = 32))
    (hch : List.Chain' NoAdjSpace l) :
    subRunsAux p [32] false l = l ∧
      ((∀ d, l.head? = some d → d ≠ 32) → subRunsAux p [32] true l = l) := by
  induction l with
  | nil => exact ⟨rfl, fun _ => rfl⟩
  | cons c rest ih =>
    have h32' : ∀ c' ∈ rest, (p c' = true ↔ c' = 32) :=
      fun c' h => h32 c' (List.mem_cons_of_mem _ h)
    obtain ⟨ihf, iht⟩ := ih h32' hch.tail
    constructor
    · by_cases hpc : p c = true
      · have hc32 : c = 32 := (h32 c (List.mem_cons_self _ _)).1 hpc
        subst hc32
        have hhead : ∀ d, rest.head? = some d → d ≠ 32 := by
          intro d hd hd32
        
          exact ((List.chain'_cons'.1 hch).1 d hd) ⟨rfl, hd32⟩
        simp [subRunsAux, hpc, iht hhead]
      · simp [subRunsAux, hpc, ihf]
    · intro hhead
      have hc : c ≠ 32 := hhead c rfl
      have hpc : ¬ p c = true := fun hp => hc ((h32 c (List.mem_cons_self _ _)).1 hp)
      simp [subRunsAux, hpc, ihf]

theorem subRuns_id (p : Nat → Bool) (l : Str)
    (h32 : ∀ c ∈ l, (p c = true ↔ c = 32))
    (hch : List.Chain' NoAdjSpace l) :
    subRuns p [32] l = l :=
  (subRunsAux_id p l h32 hch).1

theorem ngv_shape (x : Str) :
    (∀ c ∈ _normalize_guess_value x, isGuessChar c = true ∨ c = 32) ∧
    List.Chain' NoAdjSpace (_normalize_guess_value x) := by
  unfold _normalize_guess_value
  constructor
  · intro c hc
    have hcw := mem_pyStrip _ _ hc
    rcases subRunsAux_mem isPySpace _ false c hcw with h32 | ⟨_, hcv⟩
    · exact Or.inr h32
    · rcases subRunsAux_mem _ _ false c hcv with h32 | ⟨hng, _⟩
      · exact Or.inr h32
      · left
        simpa using hng
  · have hchw := ((subRunsAux_chain isPySpace (by decide)
      (subRuns (fun c => !isGuessChar c) [32] (normalize_word x))).1).1
    exact hchw.infix (pyStrip_within _)

theorem ngv_idem (x : Str) :
    _normalize_guess_value (_normalize_guess_value x) = _normalize_guess_value x := by
  obtain ⟨hmem, hch⟩ := ngv_shape x
  have hnorm : ∀ c ∈ _normalize_guess_value x, NormalizedChar c := by
    intro c hc
    rcases hmem c hc with hg | h32
    · simp [isGuessChar] at hg
      exact ⟨by omega, by omega, by omega⟩
    · subst h32
      exact ⟨by omega, by omega, by omega⟩
  have hstrip : pyStrip (_normalize_guess_value x) = _normalize_guess_value x := by
    unfold _normalize_guess_value
    exact pyStrip_idem _
  have h32g : ∀ c ∈ _normalize_guess_value x, ((!isGuessChar c) = true ↔ c = 32) := by
    intro c hc
    rcases hmem c hc with hg | h32
    · simp [hg]
      simp [isGuessChar] at hg
      omega
    · subst h32
      simp [isGuessChar]
  have h32w : ∀ c ∈ _normalize_guess_value x, (isPySpace c = true ↔ c = 32) := by
    intro c hc
    rcases hmem c hc with hg | h32
    · simp [isGuessChar] at hg
      constructor
      · intro hws
        simp [isPySpace] at hws
        omega
      · intro h32
        omega
    · subst h32
      simp [isPySpace]
  show pyStrip (subRuns isPySpace [32] (subRuns (fun c => !isGuessChar c) [32]
      (normalize_word (_normalize_guess_value x)))) = _normalize_guess_value x
  rw [normalize_word_of_normalized _ hnorm, hstrip,
    subRuns_id _ _ h32g hch, subRuns_id _ _ h32w hch, hstrip]

/-- C8: both normalizers are idempotent on every string, and
`_normalize_guess_value` is diacritic/case/punctuation-insensitive on the
spec's example: `"Évidemment!"` and `"evidemment"` normalize alike. -/
theorem normalization_idempotent_insensitive :
    (∀ x : Str, normalize_word (normalize_word x) = normalize_word x) ∧
    (∀ x : Str, _normalize_guess_value (_normalize_guess_value x) =
      _normalize_guess_value x) ∧
    _normalize_guess_value (s2l "Évidemment!") = _normalize_guess_value (s2l "evidemment") :=
  ⟨normalize_word_idem, ngv_idem, by decide⟩

/-! ## C5 -/

/-- The team invariant the spec intends: the shared ledger's seq values are
exactly 1, 2, …, n and the counter sits at n + 1. -/
def TeamSeqInv (s : TeamSession) : Prop :=
  s.guesses.map GuessEvent.seq = List.range' 1 s.guesses.length ∧
  s.next_seq = s.guesses.length + 1

/-- All seq values recorded in a versus session, across the per-player
ledgers. -/
def versusAllSeqs (s : VersusSession) : List Nat :=
  (s.guesses_by_player.map (fun e => e.2.map GuessEvent.seq)).flatten

/-- The versus invariant the code maintains: `next_seq` is session-scoped, so
each player ledger is strictly increasing while the seq values across both
ledgers are a permutation of 1, …, next_seq − 1; ledgers are only kept for
members. -/
def VersusSeqInv (s : VersusSession) : Prop :=
  (∀ e ∈ s.guesses_by_player, List.Pairwise (· < ·) (e.2.map GuessEvent.seq)) ∧
  (versusAllSeqs s).Perm (List.range' 1 (s.next_seq - 1)) ∧
  1 ≤ s.next_seq ∧
  (∀ e ∈ s.guesses_by_player, dictContains e.1 s.players = true)

/-- The reachable team registries: everything the engine operations can
produce from the empty registry. -/
inductive TeamReach : TeamRegistry → Prop
  | init : TeamReach []
  | create (r : TeamRegistry) (h : TeamReach r) (ttl : Int) (client_id : Str) (ms : Int)
      (song : Song) (now : Int) (rnd : List (List Nat)) :
      TeamReach (create_team_session ttl r client_id ms song now rnd).1
  | join (r : TeamRegistry) (h : TeamReach r) (ttl : Int) (code client_id : Str) (now : Int) :
      TeamReach (join_team_session ttl r code client_id now).1
  | stateRead (r : TeamRegistry) (h : TeamReach r) (ttl : Int) (code client_id : Str)
      (now : Int) : TeamReach (get_team_session_state ttl r code client_id now).1
  | guess (r : TeamRegistry) (h : TeamReach r) (ttl : Int) (code client_id word : Str)
      (now : Int) : TeamReach (add_team_guess ttl r code client_id word now).1
  | titleGuess (r : TeamRegistry) (h : TeamReach r) (ttl : Int) (code client_id title : Str)
      (now : Int) : TeamReach (add_team_title_guess ttl r code client_id title now).1

/-- The reachable versus registries. -/
inductive VersusReach : VersusRegistry → Prop
  | init : VersusReach []
  | create (r : VersusRegistry) (h : VersusReach r) (ttl : Int) (client_id : Str) (ms : Int)
      (song : Song) (now : Int) (rnd : List (List Nat)) :
      VersusReach (create_versus_session ttl r client_id ms song now rnd).1
  | join (r : VersusRegistry) (h : VersusReach r) (ttl : Int) (code client_id : Str)
      (now : Int) : VersusReach (join_versus_session ttl r code client_id now).1
  | stateRead (r : VersusRegistry) (h : VersusReach r) (ttl : Int) (code client_id : Str)
      (now : Int) : VersusReach (get_versus_session_state ttl r code client_id now).1
  | guess (r : VersusRegistry) (h : VersusReach r) (ttl : Int) (code client_id word : Str)
      (now : Int) : VersusReach (add_versus_guess ttl r code client_id word now).1
  | titleGuess (r : VersusRegistry) (h : VersusReach r) (ttl : Int)
      (code client_id title : Str) (now : Int) :
      VersusReach (add_versus_title_guess ttl r code client_id title now).1

theorem mem_cleanupStore (activity : Int → σ → Int) (ttl now : Int)
    (d : List (Str × σ)) (e : Str × σ) (h : e ∈ cleanupStore activity ttl now d) : e ∈ d := by
  unfold cleanupStore at h
  split at h
  · exact h
  · exact (List.mem_filter.1 h).1

theorem mem_dictSet (k : Str) (v : α) (d : List (Str × α)) (e : Str × α)
    (h : e ∈ dictSet k v d) : e = (k, v) ∨ e ∈ d := by
  induction d with
  | nil => simpa [dictSet] using h
  | cons e0 rest ih =>
    unfold dictSet at h
    split at h
    · rcases List.mem_cons.1 h with h1 | h1
      · exact Or.inl h1
      · exact Or.inr (List.mem_cons_of_mem _ h1)
    · rcases List.mem_cons.1 h with h1 | h1
      · exact Or.inr (h1 ▸ List.mem_cons_self _ _)
      · rcases ih h1 with h2 | h2
        · exact Or.inl h2
        · exact Or.inr (List.mem_cons_of_mem _ h2)

theorem mem_dictAppend (k : Str) (x : α) (d : List (Str × List α)) (e : Str × List α)
    (h : e ∈ dictAppend k x d) :
    e ∈ d ∨ (∃ e0 ∈ d, e0.1 = k ∧ e = (e0.1, e0.2 ++ [x])) ∨ e = (k, [x]) := by
  induction d with
  | nil => simpa [dictAppend] using h
  | cons e0 rest ih =>
    unfold dictAppend at h
    split at h
    · rename_i hk
      rcases List.mem_cons.1 h with h1 | h1
      · exact Or.inr (Or.inl ⟨e0, List.mem_cons_self _ _, hk, h1⟩)
      · exact Or.inl (List.mem_cons_of_mem _ h1)
    · rcases List.mem_cons.1 h with h1 | h1
      · exact Or.inl (h1 ▸ List.mem_cons_self _ _)
      · rcases ih h1 with h2 | ⟨e1, he1, hk1, he⟩ | h2
        · exact Or.inl (List.mem_cons_of_mem _ h2)
        · exact Or.inr (Or.inl ⟨e1, List.mem_cons_of_mem _ he1, hk1, he⟩)
        · exact Or.inr (Or.inr h2)

def versusGapReg1 : VersusRegistry :=
  (add_versus_guess 43200 versusRegFresh (s2l "ABCDEF") (s2l "A") (s2l "w1") 12).1

def versusGapReg2 : VersusRegistry :=
  (add_versus_guess 43200 versusGapReg1 (s2l "ABCDEF") (s2l "B") (s2l "w2") 13).1

def versusGapReg3 : VersusRegistry :=
  (add_versus_guess 43200 versusGapReg2 (s2l "ABCDEF") (s2l "A") (s2l "w3") 14).1

/-- C5, counterexample: after A guesses, B guesses, A guesses again, the
versus session's per-player ledgers carry seqs A ↦ [1, 3] and B ↦ [2]:
A's player-scoped ledger is strictly increasing but *not* gap-free (2 is
skipped), refuting the claim that each player-scoped ledger's seq values
have no gaps. -/
theorem versus_player_ledger_gap_counterexample :
    (dictGet (s2l "ABCDEF") versusGapReg3).map
        (fun s => s.guesses_by_player.map (fun q => (q.1, q.2.map GuessEvent.seq))) =
      some [(s2l "A", [1, 3]), (s2l "B", [2])] ∧
    ¬ List.Chain' (fun a b => b = a + 1) [1, 3] := by
  refine ⟨by decide, fun hch => ?_⟩
  have := List.chain'_cons.1 hch
  omega

theorem dictGet_mem (k : Str) (d : List (Str × α)) (v : α) (h : dictGet k d = some v) :
    (k, v) ∈ d := by
  induction d with
  | nil => simp [dictGet] at h
  | cons e rest ih =>
    rw [dictGet] at h
    split at h
    · rename_i hk
      injection h with h2
      have he : (k, v) = e := by
        rw [← hk, ← h2]
    
      rw [he]
      exact List.mem_cons_self _ _
    · exact List.mem_cons_of_mem _ (ih h)

theorem team_reach_inv (r : TeamRegistry) (h : TeamReach r) :
    ∀ e ∈ r, TeamSeqInv e.2 := by
  induction h with
  | init => intro e he; simp at he
  | create r h ttl client_id ms song now rnd ih =>
    intro e he
    unfold create_team_session at he
    simp only [] at he
    split at he
    · exact ih e he
    · split at he
      · exact ih e he
      · split at he
        · exact ih e (mem_cleanupStore _ _ _ _ _ he)
        · rcases mem_dictSet _ _ _ _ he with h1 | h1
          · rw [h1]
            exact ⟨rfl, rfl⟩
          · exact ih e (mem_cleanupStore _ _ _ _ _ h1)
  | join r h ttl code client_id now ih =>
    intro e he
    unfold join_team_session at he
    simp only [] at he
    split at he
    · exact ih e he
    · split at he
      · exact ih e he
      · split at he
        · exact ih e (mem_cleanupStore _ _ _ _ _ he)
        · rename_i session heq
          split at he
          · exact ih e (mem_cleanupStore _ _ _ _ _ he)
          · rcases mem_dictSet _ _ _ _ he with h1 | h1
            · have hinv := ih _ (mem_cleanupStore _ _ _ _ _ (dictGet_mem _ _ _ heq))
              rw [h1]
              split
              · exact hinv
              · exact hinv
            · exact ih e (mem_cleanupStore _ _ _ _ _ h1)
  | stateRead r h ttl code client_id now ih =>
    intro e he
    unfold get_team_session_state at he
    simp only [] at he
    split at he
    · exact ih e he
    · split at he
      · exact ih e he
      · split at he
        · exact ih e (mem_cleanupStore _ _ _ _ _ he)
        · rename_i session heq
          split at he
          · exact ih e (mem_cleanupStore _ _ _ _ _ he)
          · rcases mem_dictSet _ _ _ _ he with h1 | h1
            · have hinv := ih _ (mem_cleanupStore _ _ _ _ _ (dictGet_mem _ _ _ heq))
              rw [h1]
              exact hinv
            · exact ih e (mem_cleanupStore _ _ _ _ _ h1)
  | guess r h ttl code client_id word now ih =>
    intro e he
    unfold add_team_guess at he
    simp only [] at he
    split at he
    · exact ih e he
    · split at he
      · exact ih e he
      · split at he
        · exact ih e he
        · split at he
          · exact ih e he
          · split at he
            · exact ih e (mem_cleanupStore _ _ _ _ _ he)
            · rename_i session heq
              split at he
              · exact ih e (mem_cleanupStore _ _ _ _ _ he)
              · split at he
                · exact ih e (mem_cleanupStore _ _ _ _ _ he)
                · rcases mem_dictSet _ _ _ _ he with h1 | h1
                  · have hinv := ih _ (mem_cleanupStore _ _ _ _ _ (dictGet_mem _ _ _ heq))
                    obtain ⟨hmap, hseq⟩ := hinv
                    dsimp only at hmap hseq
                    rw [h1]
                    constructor
                    · simp only [List.map_append, List.map_cons, List.map_nil, hmap,
                        List.length_append, List.length_cons, List.length_nil]
                      rw [List.range'_concat]
                      simp [hseq, Nat.add_comm]
                    · simp only [List.length_append, List.length_cons, List.length_nil]
                      omega
                  · exact ih e (mem_cleanupStore _ _ _ _ _ h1)
  | titleGuess r h ttl code client_id title now ih =>
    intro e he
    unfold add_team_title_guess at he
    simp only [] at he
    split at he
    · exact ih e he
    · split at he
      · exact ih e he
      · split at he
        · exact ih e he
        · split at he
          · exact ih e (mem_cleanupStore _ _ _ _ _ he)
          · rename_i session heq
            split at he
            · exact ih e (mem_cleanupStore _ _ _ _ _ he)
            · split at he
              · exact ih e (mem_cleanupStore _ _ _ _ _ he)
              · split at he
                · exact ih e (mem_cleanupStore _ _ _ _ _ he)
                · split at he
                  · rcases mem_dictSet _ _ _ _ he with h1 | h1
                    · have hinv := ih _ (mem_cleanupStore _ _ _ _ _ (dictGet_mem _ _ _ heq))
                      rw [h1]
                      exact hinv
                    · exact ih e (mem_cleanupStore _ _ _ _ _ h1)
                  · exact ih e (mem_cleanupStore _ _ _ _ _ he)

theorem dictContains_append (k : Str) (d d2 : List (Str × α)) :
    dictContains k (d ++ d2) = (dictContains k d || dictContains k d2) := by
  induction d with
  | nil => simp [dictContains, dictGet]
  | cons e rest ih =>
    by_cases he : e.1 = k
    · simp [dictContains, dictGet, he]
    · simp only [List.cons_append, dictContains, dictGet, if_neg he] at ih ⊢
      exact ih

theorem dictSet_not_mem (k : Str) (v : α) (d : List (Str × α))
    (h : dictGet k d = none) : dictSet k v d = d ++ [(k, v)] := by
  induction d with
  | nil => rfl
  | cons e rest ih =>
    rw [dictGet] at h
    split at h
    · exact absurd h (by simp)
    · rename_i he
      rw [dictSet, if_neg he, List.cons_append, ih h]

theorem flatten_dictAppend_perm (k : Str) (x : GuessEvent) (d : List (Str × List GuessEvent)) :
    ((dictAppend k x d).map (fun e => e.2.map GuessEvent.seq)).flatten.Perm
      ((d.map (fun e => e.2.map GuessEvent.seq)).flatten ++ [x.seq]) := by
  induction d with
  | nil => simp [dictAppend]
  | cons e rest ih =>
    unfold dictAppend
    split
    · simp only [List.map_cons, List.flatten_cons, List.map_append, List.map_nil]
      rw [List.append_assoc, List.append_assoc]
      refine List.Perm.append_left _ ?_
      exact List.perm_append_comm
    · simp only [List.map_cons, List.flatten_cons]
      rw [List.append_assoc]
      exact List.Perm.append_left _ ih

theorem seq_lt_of_mem_allSeqs (s : VersusSession)
    (hperm : (versusAllSeqs s).Perm (List.range' 1 (s.next_seq - 1)))
    (a : Nat) (ha : a ∈ versusAllSeqs s) : a < s.next_seq := by
  have h2 := hperm.mem_iff.1 ha
  rw [List.mem_range'_1] at h2
  omega

theorem mem_allSeqs_of_entry (s : VersusSession) (e : Str × List GuessEvent)
    (he : e ∈ s.guesses_by_player) (a : Nat) (ha : a ∈ e.2.map GuessEvent.seq) :
    a ∈ versusAllSeqs s := by
  unfold versusAllSeqs
  rw [List.mem_flatten]
  exact ⟨e.2.map GuessEvent.seq, List.mem_map_of_mem _ he, ha⟩

theorem versus_reach_inv (r : VersusRegistry) (h : VersusReach r) :
    ∀ e ∈ r, VersusSeqInv e.2 := by
  induction h with
  | init => intro e he; simp at he
  | create r h ttl client_id ms song now rnd ih =>
    intro e he
    unfold create_versus_session at he
    simp only [] at he
    split at he
    · exact ih e he
    · split at he
      · exact ih e he
      · split at he
        · exact ih e (mem_cleanupStore _ _ _ _ _ he)
        · rcases mem_dictSet _ _ _ _ he with h1 | h1
          · rw [h1]
            refine ⟨?_, ?_, ?_, ?_⟩
            · intro e2 he2
              simp at he2
              simp [he2]
            · simp [versusAllSeqs]
            · simp
            · intro e2 he2
              simp at he2
              simp [he2, dictContains, dictGet]
          · exact ih e (mem_cleanupStore _ _ _ _ _ h1)
  | join r h ttl code client_id now ih =>
    intro e he
    unfold join_versus_session at he
    simp only [] at he
    split at he
    · exact ih e he
    · split at he
      · exact ih e he
      · split at he
        · exact ih e (mem_cleanupStore _ _ _ _ _ he)
        · rename_i session heq
          split at he
          · exact ih e (mem_cleanupStore _ _ _ _ _ he)
          · rcases mem_dictSet _ _ _ _ he with h1 | h1
            · have hinv := ih _ (mem_cleanupStore _ _ _ _ _ (dictGet_mem _ _ _ heq))
              obtain ⟨hpw, hperm, hone, hkeys⟩ := hinv
              dsimp only at hpw hperm hone hkeys
              rw [h1]
              split
              · rename_i hnew
                have hno : dictGet (pyStrip client_id) session.guesses_by_player = none := by
                  cases hg : dictGet (pyStrip client_id) session.guesses_by_player with
                  | none => rfl
                  | some l =>
                    have hmem2 := hkeys _ (dictGet_mem _ _ _ hg)
                    exact absurd hmem2 hnew
                refine ⟨?_, ?_, ?_, ?_⟩
                · intro e2 he2
                  rcases mem_dictSet _ _ _ _ he2 with h2 | h2
                  · simp [h2]
                  · exact hpw e2 h2
                · show ((dictSet (pyStrip client_id) [] session.guesses_by_player).map
                      (fun e => e.2.map GuessEvent.seq)).flatten.Perm _
                  rw [dictSet_not_mem _ _ _ hno]
                  simpa using hperm
                · exact hone
                · intro e2 he2
                  rcases mem_dictSet _ _ _ _ he2 with h2 | h2
                  · rw [h2]
                    show dictContains (pyStrip client_id)
                      (session.players ++ [(pyStrip client_id, now)]) = true
                    rw [dictContains_append]
                    simp [dictContains, dictGet]
                  · show dictContains e2.1 (session.players ++ [(pyStrip client_id, now)]) = true
                    rw [dictContains_append, hkeys e2 h2]
                    simp
              · exact ⟨hpw, hperm, hone, hkeys⟩
            · exact ih e (mem_cleanupStore _ _ _ _ _ h1)
  | stateRead r h ttl code client_id now ih =>
    intro e he
    unfold get_versus_session_state at he
    simp only [] at he
    split at he
    · exact ih e he
    · split at he
      · exact ih e he
      · split at he
        · exact ih e (mem_cleanupStore _ _ _ _ _ he)
        · rename_i session heq
          split at he
          · exact ih e (mem_cleanupStore _ _ _ _ _ he)
          · rcases mem_dictSet _ _ _ _ he with h1 | h1
            · have hinv := ih _ (mem_cleanupStore _ _ _ _ _ (dictGet_mem _ _ _ heq))
              rw [h1]
              exact hinv
            · exact ih e (mem_cleanupStore _ _ _ _ _ h1)
  | guess r h ttl code client_id word now ih =>
    intro e he
    unfold add_versus_guess at he
    simp only [] at he
    split at he
    · exact ih e he
    · split at he
      · exact ih e he
      · split at he
        · exact ih e he
        · split at he
          · exact ih e he
          · split at he
            · exact ih e (mem_cleanupStore _ _ _ _ _ he)
            · rename_i session heq
              split at he
              · exact ih e (mem_cleanupStore _ _ _ _ _ he)
              · rename_i hmem0
                split at he
                · exact ih e (mem_cleanupStore _ _ _ _ _ he)
                · split at he
                  · exact ih e (mem_cleanupStore _ _ _ _ _ he)
                  · rcases mem_dictSet _ _ _ _ he with h1 | h1
                    · have hinv := ih _ (mem_cleanupStore _ _ _ _ _ (dictGet_mem _ _ _ heq))
                      obtain ⟨hpw, hperm, hone, hkeys⟩ := hinv
                      dsimp only at hpw hperm hone hkeys
                      have hmem1 : dictContains (pyStrip client_id) session.players = true := by
                        by_contra hc
                        exact hmem0 (by simpa using hc)
                      rw [h1]
                      refine ⟨?_, ?_, ?_, ?_⟩
                      · intro e2 he2
                        rcases mem_dictAppend _ _ _ _ he2 with h2 | ⟨e0, he0, hk0, h2⟩ | h2
                        · exact hpw e2 h2
                        · rw [h2]
                          dsimp only
                          rw [List.map_append, List.pairwise_append]
                          refine ⟨hpw e0 he0, by simp, ?_⟩
                          intro a ha b hb
                          simp at hb
                          rw [hb]
                          exact seq_lt_of_mem_allSeqs session hperm a
                            (mem_allSeqs_of_entry session e0 he0 a ha)
                        · rw [h2]
                          simp
                      · show ((dictAppend (pyStrip client_id)
                            ⟨session.next_seq, pyStrip word, pyStrip client_id, now⟩
                            session.guesses_by_player).map
                              (fun e => e.2.map GuessEvent.seq)).flatten.Perm _
                        refine (flatten_dictAppend_perm _ _ _).trans ?_
                        have h3 : session.next_seq + 1 - 1 = (session.next_seq - 1) + 1 := by
                          omega
                        dsimp only
                        rw [h3, List.range'_concat]
                        have h4 : 1 + 1 * (session.next_seq - 1) = session.next_seq := by
                          omega
                        rw [h4]
                        exact hperm.append_right _
                      · show 1 ≤ session.next_seq + 1
                        omega
                      · intro e2 he2
                        rcases mem_dictAppend _ _ _ _ he2 with h2 | ⟨e0, he0, hk0, h2⟩ | h2
                        · exact hkeys e2 h2
                        · rw [h2]
                          exact hkeys e0 he0
                        · rw [h2]
                          exact hmem1
                    · exact ih e (mem_cleanupStore _ _ _ _ _ h1)
  | titleGuess r h ttl code client_id title now ih =>
    intro e he
    unfold add_versus_title_guess at he
    simp only [] at he
    split at he
    · exact ih e he
    · split at he
      · exact ih e he
      · split at he
        · exact ih e he
        · split at he
          · exact ih e (mem_cleanupStore _ _ _ _ _ he)
          · rename_i session heq
            split at he
            · exact ih e (mem_cleanupStore _ _ _ _ _ he)
            · split at he
              · exact ih e (mem_cleanupStore _ _ _ _ _ he)
              · split at he
                · exact ih e (mem_cleanupStore _ _ _ _ _ he)
                · split at he
                  · rcases mem_dictSet _ _ _ _ he with h1 | h1
                    · have hinv := ih _ (mem_cleanupStore _ _ _ _ _ (dictGet_mem _ _ _ heq))
                      rw [h1]
                      exact hinv
                    · exact ih e (mem_cleanupStore _ _ _ _ _ h1)
                  · exact ih e (mem_cleanupStore _ _ _ _ _ he)

/-- C5, amended: sequence numbers are gap-free and strictly increasing
within their scope — which is the session in both modes: in every reachable
team registry each session's shared ledger carries seqs exactly 1, 2, …, n
with `next_seq = n + 1`; in every reachable versus registry each player's
ledger is strictly increasing and the seqs across the session's per-player
ledgers are, as a multiset, exactly 1, …, next_seq − 1 (a single player's
ledger may skip values taken by the opponent). -/
theorem seq_gapfree_in_scope (tr : TeamRegistry) (vr : VersusRegistry)
    (ht : TeamReach tr) (hv : VersusReach vr) :
    (∀ e ∈ tr, TeamSeqInv e.2) ∧ (∀ e ∈ vr, VersusSeqInv e.2) :=
  ⟨team_reach_inv tr ht, versus_reach_inv vr hv⟩

def teamWitSession : TeamSession :=
  { code := s2l "ABCDEF", host_id := s2l "A", created_at := some 10,
    updated_at := some 12, min_streams := 0, song := songYZ,
    players := [(s2l "A", 10)],
    guesses := [⟨1, s2l "bonjour", s2l "A", 12⟩],
    guess_index := [(s2l "bonjour", ⟨1, s2l "bonjour", s2l "A", 12⟩)],
    title_found_by := [], next_seq := 2 }

def versusGapSession : VersusSession :=
  { code := s2l "ABCDEF", host_id := s2l "A", created_at := some 10,
    updated_at := some 14, min_streams := 0, song := songYZ,
    players := [(s2l "A", 10), (s2l "B", 11)],
    guesses_by_player :=
      [(s2l "A", [⟨1, s2l "w1", s2l "A", 12⟩, ⟨3, s2l "w3", s2l "A", 14⟩]),
       (s2l "B", [⟨2, s2l "w2", s2l "B", 13⟩])],
    guess_index_by_player :=
      [(s2l "A", [(s2l "w1", ⟨1, s2l "w1", s2l "A", 12⟩),
                  (s2l "w3", ⟨3, s2l "w3", s2l "A", 14⟩)]),
       (s2l "B", [(s2l "w2", ⟨2, s2l "w2", s2l "B", 13⟩)])],
    next_seq := 4, winner_id := [] }

/-- C5 witness: the invariant instantiated at concrete reachable registries
(a team session after one accepted guess; the interleaved versus session of
the counterexample). -/
theorem seq_gapfree_in_scope_witness :
    TeamSeqInv teamWitSession ∧ VersusSeqInv versusGapSession := by
  have hTr : TeamReach (add_team_guess 43200 (create_team_session 43200 [] (s2l "A") 0 songYZ 10
      [[0, 1, 2, 3, 4, 5]]).1 (s2l "ABCDEF") (s2l "A") (s2l "bonjour") 12).1 :=
    .guess _ (.create [] .init 43200 (s2l "A") 0 songYZ 10 [[0, 1, 2, 3, 4, 5]])
      43200 (s2l "ABCDEF") (s2l "A") (s2l "bonjour") 12
  have hVrFresh : VersusReach versusRegFresh := by
    have h1 := VersusReach.create [] .init 43200 (s2l "A") 0 songYZ 10 [[0, 1, 2, 3, 4, 5]]
    have h2 := VersusReach.join _ h1 43200 (s2l "ABCDEF") (s2l "B") 11
    have he : (join_versus_session 43200
        (create_versus_session 43200 [] (s2l "A") 0 songYZ 10 [[0, 1, 2, 3, 4, 5]]).1
        (s2l "ABCDEF") (s2l "B") 11).1 = versusRegFresh := by decide
    rwa [he] at h2
  have hVr : VersusReach versusGapReg3 := by
    unfold versusGapReg3 versusGapReg2 versusGapReg1
    exact .guess _ (.guess _ (.guess _ hVrFresh 43200 (s2l "ABCDEF") (s2l "A") (s2l "w1") 12)
      43200 (s2l "ABCDEF") (s2l "B") (s2l "w2") 13) 43200 (s2l "ABCDEF") (s2l "A") (s2l "w3") 14
  have hmain := seq_gapfree_in_scope _ _ hTr hVr
  exact ⟨hmain.1 (s2l "ABCDEF", teamWitSession) (by decide),
         hmain.2 (s2l "ABCDEF", versusGapSession) (by decide)⟩

/-! ## C10 -/

theorem mem_CODE_ALPHABET (c : Nat) :
    c ∈ CODE_ALPHABET ↔ ((65 ≤ c ∧ c ≤ 90) ∨ (48 ≤ c ∧ c ≤ 57)) := by
  unfold CODE_ALPHABET
  rw [List.mem_append]
  simp only [List.mem_map, List.mem_range]
  constructor
  · rintro (⟨i, hi, rfl⟩ | ⟨i, hi, rfl⟩) <;> omega
  · rintro (⟨h1, h2⟩ | ⟨h1, h2⟩)
    · exact Or.inl ⟨c - 65, by omega, by omega⟩
    · exact Or.inr ⟨c - 48, by omega, by omega⟩

/-- A lowercase or mixed-case rendering of a code: character-wise equal up to
ASCII lowercasing. -/
def caseRenderingB : Str → Str → Bool
  | [], [] => true
  | a :: r, b :: c =>
    (decide (a = b) || (decide (a = b + 32) && decide (65 ≤ b) && decide (b ≤ 90))) &&
      caseRenderingB r c
  | _, _ => false

theorem rendering_chars : ∀ (r code : Str), (∀ c ∈ code, c ∈ CODE_ALPHABET) →
    caseRenderingB r code = true →
    ∀ a ∈ r, (65 ≤ a ∧ a ≤ 90) ∨ (48 ≤ a ∧ a ≤ 57) ∨ (97 ≤ a ∧ a ≤ 122) := by
  intro r
  induction r with
  | nil => intro code h hc a ha; simp at ha
  | cons a0 r ih =>
    intro code h hc a ha
    cases code with
    | nil => simp [caseRenderingB] at hc
    | cons b c =>
      simp only [caseRenderingB, Bool.and_eq_true, Bool.or_eq_true, decide_eq_true_eq] at hc
      obtain ⟨hab, hrest⟩ := hc
      have hb := (mem_CODE_ALPHABET b).1 (h b (List.mem_cons_self _ _))
      rcases List.mem_cons.1 ha with rfl | ha
      · rcases hab with rfl | ⟨⟨rfl, h65⟩, h90⟩
        · omega
        · omega
      · exact ih c (fun x hx => h x (List.mem_cons_of_mem _ hx)) hrest a ha

theorem pyStrip_eq_self (s : Str) (h : ∀ c ∈ s, isPySpace c = false) : pyStrip s = s := by
  rw [pyStrip_eq,
    dropWhile_eq_self_of_head _ _ (fun d hd => h d (List.mem_of_mem_head? hd))]
  refine List.rdropWhile_eq_self_iff.mpr ?_
  intro hl
  simp [h _ (List.getLast_mem hl)]

theorem pyUpper_of_rendering : ∀ (r code : Str), (∀ c ∈ code, c ∈ CODE_ALPHABET) →
    caseRenderingB r code = true → pyUpper r = code := by
  intro r
  induction r with
  | nil =>
    intro code h hc
    cases code with
    | nil => rfl
    | cons b c => simp [caseRenderingB] at hc
  | cons a r ih =>
    intro code h hc
    cases code with
    | nil => simp [caseRenderingB] at hc
    | cons b c =>
      simp only [caseRenderingB, Bool.and_eq_true, Bool.or_eq_true, decide_eq_true_eq] at hc
      obtain ⟨hab, hrest⟩ := hc
      have hb := (mem_CODE_ALPHABET b).1 (h b (List.mem_cons_self _ _))
      have hchar : pyUpperChar a = b := by
        rcases hab with rfl | ⟨⟨rfl, h65⟩, h90⟩
        · unfold pyUpperChar
          rw [if_neg (by omega)]
        · unfold pyUpperChar
          rw [if_pos (by omega)]
          omega
      show pyUpperChar a :: pyUpper r = b :: c
      rw [hchar, ih c (fun x hx => h x (List.mem_cons_of_mem _ hx)) hrest]

theorem normCode_of_rendering (r code : Str) (h : ∀ c ∈ code, c ∈ CODE_ALPHABET)
    (hc : caseRenderingB r code = true) : normCode r = code := by
  unfold normCode
  rw [pyStrip_eq_self r ?hws]
  · exact pyUpper_of_rendering r code h hc
  case hws =>
    intro c hcm
    have hb := rendering_chars r code h hc c hcm
    have : ¬ isPySpace c = true := by
      intro hws
      simp only [isPySpace, List.contains_eq_any_beq, List.any_eq_true, beq_iff_eq] at hws
      obtain ⟨x, hx, hxc⟩ := hws
      fin_cases hx <;> omega
    simpa using this

/-- C10: session codes are case-insensitive at the public interface.
(1) `_generate_session_code` only emits fresh 6-character codes over
`A–Z0–9`; (2) any lowercase/mixed-case rendering of such a code strips and
uppercases back to the code itself; (3)–(4) every code-taking operation, in
both modes, is invariant under replacing the submitted code by any string
with the same strip-and-uppercase normal form, so every rendering addresses
the same session. -/
theorem session_codes_case_insensitive :
    (∀ (σ : Type) (store : List (Str × σ)) (rnd : List (List Nat)) (code : Str),
       _generate_session_code store rnd = some code →
       code.length = TEAM_CODE_LENGTH ∧ (∀ c ∈ code, c ∈ CODE_ALPHABET) ∧
         dictContains code store = false) ∧
    (∀ r code : Str, (∀ c ∈ code, c ∈ CODE_ALPHABET) → caseRenderingB r code = true →
       normCode r = code) ∧
    (∀ (ttl now : Int) (reg : TeamRegistry) (r c cid w : Str), normCode r = normCode c →
       join_team_session ttl reg r cid now = join_team_session ttl reg c cid now ∧
       get_team_session_state ttl reg r cid now = get_team_session_state ttl reg c cid now ∧
       add_team_guess ttl reg r cid w now = add_team_guess ttl reg c cid w now ∧
       add_team_title_guess ttl reg r cid w now = add_team_title_guess ttl reg c cid w now) ∧
    (∀ (ttl now : Int) (reg : VersusRegistry) (r c cid w : Str), normCode r = normCode c →
       join_versus_session ttl reg r cid now = join_versus_session ttl reg c cid now ∧
       get_versus_session_state ttl reg r cid now = get_versus_session_state ttl reg c cid now ∧
       add_versus_guess ttl reg r cid w now = add_versus_guess ttl reg c cid w now ∧
       add_versus_title_guess ttl reg r cid w now =
         add_versus_title_guess ttl reg c cid w now) := by
  refine ⟨?_, normCode_of_rendering, ?_, ?_⟩
  · intro σ store rnd code hgen
    unfold _generate_session_code at hgen
    have hmem := List.mem_of_find?_eq_some hgen
    have hpred := List.find?_some hgen
    rw [List.mem_map] at hmem
    obtain ⟨draw, _, hdraw⟩ := hmem
    subst hdraw
    refine ⟨by simp [mkCode, TEAM_CODE_LENGTH], ?_, by simpa using hpred⟩
    intro ch hch
    unfold mkCode at hch
    rw [List.mem_map] at hch
    obtain ⟨i, _, hi⟩ := hch
    subst hi
    have hlt : (draw.getD i 0) % CODE_ALPHABET.length < CODE_ALPHABET.length :=
      Nat.mod_lt _ (by decide)
    rw [List.getD_eq_getElem CODE_ALPHABET 0 hlt]
    exact List.getElem_mem hlt
  · intro ttl now reg r c cid w h
    refine ⟨?_, ?_, ?_, ?_⟩
    · unfold join_team_session
      rw [h]
    · unfold get_team_session_state
      rw [h]
    · unfold add_team_guess
      rw [h]
    · unfold add_team_title_guess
      rw [h]
  · intro ttl now reg r c cid w h
    refine ⟨?_, ?_, ?_, ?_⟩
    · unfold join_versus_session
      rw [h]
    · unfold get_versus_session_state
      rw [h]
    · unfold add_versus_guess
      rw [h]
    · unfold add_versus_title_guess
      rw [h]

/-- C10 witness: "abc123" strips/uppercases to "ABC123", and a lowercase
rendering of the stored code addresses the same team session in a join. -/
theorem session_codes_case_insensitive_witness :
    normCode (s2l "abc123") = s2l "ABC123" ∧
    join_team_session 43200 teamRegYZ (s2l "abcdef") (s2l "B") 20 =
      join_team_session 43200 teamRegYZ (s2l "ABCDEF") (s2l "B") 20 :=
  ⟨session_codes_case_insensitive.2.1 (s2l "abc123") (s2l "ABC123")
      (by decide) (by decide),
   (session_codes_case_insensitive.2.2.1 43200 20 teamRegYZ (s2l "abcdef") (s2l "ABCDEF")
      (s2l "B") [] (by decide)).1⟩
